import Mathlib

/-!
# nuDustC: a shallow embedding of `src/src/nudust.cpp`

The driver class `nuDust` reads its inputs into a map from cell id to a
`cell_input` record, assembles the per-cell solution vector, derives the
sputtering coefficients and hands a slice of the cells to each rank.

Conventions of the embedding.

* `double` values are elements of an ordered field `K` (exact arithmetic);
  every definition is computable and can be evaluated at `K = ℚ`.
* `std::vector<double>` is `List K`; `std::map<int, cell_input>` is an
  association list in iteration order (`CellStore`).
* `std::pow` is a parameter `pw : K → K → K` of the definitions that call it,
  and `std::log10` a parameter `log10 : K → K`; over `ℝ` they are the real
  power and the decimal logarithm.
* The file system is a parameter: which output files exist, and the tokenised
  content of each input and restart file.
* A call of `exit(1)`, or an uncaught exception, is the result `none`.
-/

namespace NuDust

/-! ## Data model -/

/-- Modelled from the spec: the `cell_input` record of `cell.h` (not among the
sources), with the fields that `nudust.cpp` reads and writes.  A record
created by `cell_inputs[id]` has empty vectors and zero scalars. -/
structure CellInput (K : Type) where
  inp_init_abund : List K
  inp_size_dist : List K
  inp_delSZ : List K
  inp_binEdges : List K
  inp_binSizes : List K
  inp_vd : List K
  inp_solution_vector : List K
  inp_times : List K
  inp_temp : List K
  inp_volumes : List K
  inp_rho : List K
  inp_pressure : List K
  inp_velo : List K
  inp_x_cm : List K
  inp_cell_time : K
  inp_shock_temp : K
  inp_shock_time : K
  sim_start_time : K
deriving DecidableEq

/-- The value-initialised record that `cell_inputs[id]` inserts for a new id. -/
def CellInput.empty {K : Type} [Zero K] : CellInput K :=
  { inp_init_abund := [], inp_size_dist := [], inp_delSZ := [], inp_binEdges := [],
    inp_binSizes := [], inp_vd := [], inp_solution_vector := [], inp_times := [],
    inp_temp := [], inp_volumes := [], inp_rho := [], inp_pressure := [],
    inp_velo := [], inp_x_cm := [], inp_cell_time := 0, inp_shock_temp := 0,
    inp_shock_time := 0, sim_start_time := 0 }

/-- The member `cell_inputs`, a `std::map<int, cell_input>`: the entries in
iteration order (ascending id). -/
abbrev CellStore (K : Type) := List (Int × CellInput K)

/-- The read `cell_inputs[k]` of `std::map::operator[]`: the record stored
under `k`, the value-initialised record when there is none. -/
def CellStore.at {K : Type} [Zero K] (m : CellStore K) (k : Int) : CellInput K :=
  (m.lookup k).getD CellInput.empty

/-- Ordered insertion of a new key, as `std::map` keeps its keys ascending. -/
def CellStore.insertNew {K : Type} (k : Int) (v : CellInput K) : CellStore K → CellStore K
  | [] => [(k, v)]
  | (k', v') :: rest =>
    if k < k' then (k, v) :: (k', v') :: rest
    else (k', v') :: CellStore.insertNew k v rest

/-- The write `cell_inputs[k] = f (cell_inputs[k])`: the record under `k` is
changed in place, and created first when `k` is new. -/
def CellStore.modify {K : Type} [Zero K] (m : CellStore K) (k : Int)
    (f : CellInput K → CellInput K) : CellStore K :=
  if (m.lookup k).isSome then
    m.map (fun e => if e.1 = k then (e.1, f e.2) else e)
  else
    CellStore.insertNew k (f CellInput.empty) m

/-- The call `v.resize(n)` of `std::vector<double>`: truncate, or pad with `0.0`. -/
def resize {K : Type} [Zero K] (v : List K) (n : ℕ) : List K :=
  v.take n ++ List.replicate (n - v.length) 0

/-- Modelled from the spec: a reaction of the chemical network (`network.h` is
not among the sources); only the product names are read here. -/
structure Reaction where
  prods : List String
deriving DecidableEq

/-- Modelled from the spec: the chemical network (`network.h` is not among the
sources): total reaction count, nucleation-reaction count, the ordered
reactions and the label used in file names. -/
structure Network where
  n_reactions : ℕ
  n_nucleation_reactions : ℕ
  reactions : List Reaction
  network_label : String

/-- Modelled from the spec: the configuration record (`configuration.h` is not
among the sources), with the entries read by the functions embedded here.  An
entry that the configuration file leaves out (a NaN in the program) is `none`. -/
structure Config (K : Type) where
  low_sd_exp : Option K
  high_sd_exp : Option K
  bin_number : Option ℕ

/-! ## `nuDust::generate_sol_vector` -/

/-- The loop body of `generate_sol_vector` for one cell: `resize` the solution
vector to the full length, then three `std::copy` calls through a
`std::back_inserter`, each of which appends. -/
def generate_sol_vector_cell {K : Type} [Zero K] (N_MOMENTS numReact numGas numBins : ℕ)
    (c : CellInput K) : CellInput K :=
  let empty_moments : List K := List.replicate (N_MOMENTS * numReact) 0
  let v0 := resize c.inp_solution_vector (numGas + N_MOMENTS * numReact + numReact * numBins)
  let v1 := v0 ++ c.inp_init_abund
  let v2 := v1 ++ empty_moments
  let v3 := v2 ++ c.inp_size_dist
  { c with inp_solution_vector := v3 }

/-- The function `nuDust::generate_sol_vector`.  `N_MOMENTS` is the constant of
`constants.h` (not among the sources), taken as a parameter.  The loop visits
every entry of `cell_inputs` and rewrites that entry through
`cell_inputs[cell_id]`.  An unset `bin_number` is read as `0`. -/
def generate_sol_vector {K : Type} [Zero K] (N_MOMENTS : ℕ) (net : Network)
    (initial_elements : List String) (nu_config : Config K)
    (cell_inputs : CellStore K) : CellStore K :=
  let numReact := net.n_nucleation_reactions
  let numGas := initial_elements.length
  let numBins := nu_config.bin_number.getD 0
  cell_inputs.map (fun ic => (ic.1, generate_sol_vector_cell N_MOMENTS numReact numGas numBins ic.2))

/-! ## `nuDust::premake` -/

/-- The three assignments of `premake` on the abundance vector of one cell;
`x1` and `x2` are read before any entry is written. -/
def premake_abund {K : Type} [LinearOrderedField K] (s1 s2 sp : ℕ) (a : List K) : List K :=
  let x1 := a.getD s1 0
  let x2 := a.getD s2 0
  if x2 > x1 then
    ((a.set sp x1).set s2 (x2 - x1)).set s1 0
  else
    ((a.set sp x2).set s1 (x1 - x2)).set s2 0

/-- The function `nuDust::premake`: every access goes through
`cell_inputs[cell_id].inp_init_abund`. -/
def premake {K : Type} [LinearOrderedField K] (s1 s2 sp : ℕ) (cell_id : Int)
    (cell_inputs : CellStore K) : CellStore K :=
  cell_inputs.modify cell_id
    (fun c => { c with inp_init_abund := premake_abund s1 s2 sp c.inp_init_abund })

/-! ## `nuDust::load_sputter_params`: mass ratio, alpha and threshold energy -/

namespace numbers

/-- Modelled from the spec: the constant `numbers::one` of `constants.h` (not
among the sources); the spec writes the test as `μ>1`. -/
def one {K : Type} [LinearOrderedField K] : K := 1

/-- Modelled from the spec: the constant `numbers::onehalf` of `constants.h`;
the spec writes `μ≤0.5` and `(μ−0.5)²`. -/
def onehalf {K : Type} [LinearOrderedField K] : K := 0.5

/-- Modelled from the spec: the constant `numbers::onefourth` of `constants.h`;
the spec writes `0.25·(μ−0.5)²`. -/
def onefourth {K : Type} [LinearOrderedField K] : K := 0.25

/-- Modelled from the spec: the constant `numbers::onethird` of `constants.h`;
the spec writes `invMU^(1/3)`. -/
def onethird {K : Type} [LinearOrderedField K] : K := 1 / 3

/-- Modelled from the spec: the constant `numbers::twothird` of `constants.h`;
the spec writes `(μ−0.6)^(2/3)`. -/
def twothird {K : Type} [LinearOrderedField K] : K := 2 / 3

/-- Modelled from the spec: the constant `numbers::four` of `constants.h`; the
spec writes `4·ionMass·grainMass`. -/
def four {K : Type} [LinearOrderedField K] : K := 4

/-- Modelled from the spec: the constant `numbers::eight` of `constants.h`; the
spec writes `8·u0·invMU^(1/3)`. -/
def eight {K : Type} [LinearOrderedField K] : K := 8

end numbers

/-- Modelled from the spec: the helper `utilities::square` of `utilities.h`
(not among the sources); the spec writes its uses as squares. -/
def square {K : Type} [LinearOrderedField K] (x : K) : K := x * x

/-- The entries of `sputARR` that the inner loop of `load_sputter_params`
derives from the two masses and the binding energy alone. -/
structure SputterPair (K : Type) where
  mu : K
  alpha : K
  Eth : K

/-- The body of the inner loop of `load_sputter_params` for grain mass `md`,
binding energy `u0` and ion mass `mi`: the assignments to `mu`, `alpha`
(Biscaro 2016 eq. 8) and `Eth` (eq. 3).  `pw` is `std::pow`. -/
def sputter_pair {K : Type} [LinearOrderedField K] (pw : K → K → K) (u0 md mi : K) :
    SputterPair K :=
  let mu := md / mi
  let invMU := mi / md
  let alpha :=
    if mu > numbers.one then 0.3 * pw (mu - 0.6) numbers.twothird
    else if mu ≤ numbers.onehalf then 0.2
    else 0.1 * invMU + numbers.onefourth * square (mu - numbers.onehalf)
  let Eth :=
    if invMU > 0.3 then numbers.eight * u0 * pw invMU numbers.onethird
    else
      let g := numbers.four * mi * md / square (mi + md)
      u0 / (g * (1 - g))
  { mu := mu, alpha := alpha, Eth := Eth }

/-- Modelled from the spec: the ion and grain property store (`sputter.h` is
not among the sources): name-keyed lookup of the ion mass, and of the grain
mass and binding energy; `none` is an unknown name. -/
structure SputterDict (K : Type) where
  ions_mi : String → Option K
  grains_md : String → Option K
  grains_u0 : String → Option K

/-- The function `nuDust::load_sputter_params`, restricted to the tables `mu`,
`alpha` and `Eth` (one row per nucleation reaction, one column per gas
species).  A lookup `at` of an unknown name throws; the run ends (`none`). -/
def load_sputter_params {K : Type} [LinearOrderedField K] (pw : K → K → K)
    (sputter : SputterDict K) (net : Network) (initial_elements : List String) :
    Option (List (List (SputterPair K))) := do
  let numReact := net.n_nucleation_reactions
  let mis ← initial_elements.mapM sputter.ions_mi
  (List.range numReact).mapM (fun gidx => do
    let r ← net.reactions.get? gidx
    let grain_name ← r.prods.head?
    let md ← sputter.grains_md grain_name
    let u0 ← sputter.grains_u0 grain_name
    pure (mis.map (fun mi => sputter_pair pw u0 md mi)))

/-! ## `nuDust::gen_size_dist` -/

/-- The call `std::copy(src.begin(), src.end(), dst.begin())`: the first
`src.size()` entries of `dst` are overwritten. -/
def copy_into {K : Type} (src dst : List K) : List K :=
  src ++ dst.drop src.length

/-- The call `std::fill(v.begin(), v.end(), x)`. -/
def fill {K : Type} (v : List K) (x : K) : List K :=
  v.map (fun _ => x)

/-- The members of `nuDust` written by the size-distribution initialisers. -/
structure SizeDist (K : Type) where
  numBins : ℕ
  init_bin_edges : List K
  init_size_bins : List K
  cell_inputs : CellStore K

/-- The loop body of `gen_size_dist` for one cell. -/
def gen_size_dist_cell {K : Type} [Zero K] (n_reactions numBins : ℕ)
    (init_bin_edges init_size_bins : List K) (c : CellInput K) : CellInput K :=
  { c with
    inp_binEdges := copy_into init_bin_edges (resize c.inp_binEdges (numBins + 1))
    inp_binSizes := copy_into init_size_bins (resize c.inp_binSizes numBins)
    inp_size_dist := fill (resize c.inp_size_dist (n_reactions * numBins)) 0
    inp_delSZ := fill (resize c.inp_delSZ (n_reactions * numBins)) 0 }

/-- The function `nuDust::gen_size_dist`.  A missing exponent or bin count ends
the run (`none`).  The two `std::generate` calls fill the resized vectors
from index `0` upwards with a counter `n` (and `m = n + 1`). -/
def gen_size_dist {K : Type} [LinearOrderedField K] (pw : K → K → K)
    (nu_config : Config K) (net : Network) (cell_inputs : CellStore K) :
    Option (SizeDist K) :=
  match nu_config.low_sd_exp, nu_config.high_sd_exp, nu_config.bin_number with
  | some low, some high, some numBins =>
    let expDel := (high - low) / (numBins : K)
    let init_bin_edges : List K :=
      (List.range (numBins + 1)).map (fun (n : ℕ) => pw 10 (low + (n : K) * expDel))
    let init_size_bins : List K :=
      (List.range numBins).map
        (fun (n : ℕ) => (init_bin_edges.getD n 0 + init_bin_edges.getD (n + 1) 0) / 2)
    some
      { numBins := numBins
        init_bin_edges := init_bin_edges
        init_size_bins := init_size_bins
        cell_inputs := cell_inputs.map (fun ic =>
          (ic.1, gen_size_dist_cell net.n_reactions numBins init_bin_edges init_size_bins ic.2)) }
  | _, _, _ => none

/-! ## `nuDust::create_restart_cells` and `nuDust::create_simulation_cells` -/

/-- A restart file after `std::getline` and `boost::split`: its lines, each a
list of tokens; a token is `some x` when `lexical_cast<double>` reads it as
`x` and `none` when the cast throws. -/
abbrev TokenFile (K : Type) := List (List (Option K))

/-- The tokens of the `n`-th `std::getline`; past the last line the buffer is
empty and splits into one empty token, which is not a number. -/
def TokenFile.line {K : Type} (f : TokenFile K) (n : ℕ) : List (Option K) :=
  f.getD n [none]

/-- The loop `try { v.push_back(lexical_cast<double>(*it)); } catch (...) {}`
over the tokens of one line. -/
def push_back_tokens {K : Type} (v : List K) (tokens : List (Option K)) : List K :=
  v ++ tokens.filterMap id

/-- The body of `create_restart_cells` on the record of the cell, once the
file is open.  The cast of the first token of line one is not guarded: a bad
token ends the run (`none`) before anything is written. -/
def create_restart_cells_input {K : Type} (f : TokenFile K) (c : CellInput K) :
    Option (CellInput K) :=
  match (f.line 0).head? with
  | some (some t) =>
    some { c with
      sim_start_time := t
      inp_vd := push_back_tokens c.inp_vd (f.line 1)
      inp_delSZ := push_back_tokens c.inp_delSZ (f.line 2)
      inp_solution_vector := push_back_tokens c.inp_solution_vector (f.line 3) }
  | _ => none

/-- The function `nuDust::create_restart_cells`.  `restart_file id` is the
content of the file `nameRS + id + ".dat"`, `none` when it cannot be opened
(the function then calls `exit(1)`). -/
def create_restart_cells {K : Type} [Zero K] (restart_file : Int → Option (TokenFile K))
    (cell_id : Int) (cell_inputs : CellStore K) : Option (CellStore K) :=
  match restart_file cell_id with
  | some f =>
    (create_restart_cells_input f (cell_inputs.at cell_id)).map
      (fun c => cell_inputs.modify cell_id (fun _ => c))
  | none => none

/-- Modelled from the spec: the `Cell` class (`cell.h` is not among the
sources), as the arguments of its constructor that vary from cell to cell:
the cell id and a copy of the cell input. -/
structure Cell (K : Type) where
  cid : Int
  input : CellInput K

/-- The state of the loop of `create_simulation_cells`: the members `cells`
and `cell_inputs`, whether the run was ended, and two records of what the loop
did that the program does not keep: the positions `i` for which the body ran,
and the ids handed to `create_restart_cells`. -/
structure SimCells (K : Type) where
  cells : List (Cell K)
  cell_inputs : CellStore K
  ended : Bool
  visited : List ℕ
  restart_reads : List Int

/-- The body of the scheduling loop at position `i`, with the map iterator on
the entry of id `cid`.  `output_exists id` says whether `name + id + ".dat"`
exists; the restart file exists when `restart_file id` is `some`. -/
def create_simulation_cells_step {K : Type} [Zero K] (output_exists : Int → Bool)
    (restart_file : Int → Option (TokenFile K)) (i : ℕ) (cid : Int) (st : SimCells K) :
    SimCells K :=
  let st := { st with visited := st.visited ++ [i] }
  if !output_exists cid then
    if !(restart_file cid).isSome then
      { st with cells := st.cells ++ [{ cid := cid, input := st.cell_inputs.at cid }] }
    else
      match create_restart_cells restart_file cid st.cell_inputs with
      | some m => { st with cell_inputs := m, restart_reads := st.restart_reads ++ [cid] }
      | none => { st with ended := true, restart_reads := st.restart_reads ++ [cid] }
  else st

/-- The loop `for (i = cell_rank_start_idx; i < cell_end && it != end; ++i)`
with `it++` at the end of the body; `it` is the list of entries not yet
visited (their ids do not change while the loop runs). -/
def create_simulation_cells_loop {K : Type} [Zero K] (output_exists : Int → Bool)
    (restart_file : Int → Option (TokenFile K)) (cell_end : ℕ) :
    ℕ → List (Int × CellInput K) → SimCells K → SimCells K
  | _, [], st => st
  | i, ic :: it, st =>
    if i < cell_end ∧ st.ended = false then
      create_simulation_cells_loop output_exists restart_file cell_end (i + 1) it
        (create_simulation_cells_step output_exists restart_file i ic.1 st)
    else st

set_option linter.unusedVariables false in
/-- The function `nuDust::create_simulation_cells` for `par_size` ranks on rank
`par_rank`.  `cell_end` is assigned twice; the second assignment is the one
the loop sees.  The iterator is advanced `cell_rank_start_idx` times from
`begin()`. -/
def create_simulation_cells {K : Type} [Zero K] (par_size par_rank : ℕ)
    (output_exists : Int → Bool) (restart_file : Int → Option (TokenFile K))
    (cell_inputs : CellStore K) : SimCells K :=
  let cells_per_rank := cell_inputs.length / par_size
  let cell_rank_start_idx := par_rank * cells_per_rank
  let cell_end :=
    if cell_rank_start_idx + cells_per_rank < cell_inputs.length
    then cell_rank_start_idx + cells_per_rank else cell_inputs.length
  let cell_end := min (cell_rank_start_idx + 10) cell_inputs.length
  let it := cell_inputs.drop cell_rank_start_idx
  create_simulation_cells_loop output_exists restart_file cell_end cell_rank_start_idx it
    { cells := [], cell_inputs := cell_inputs, ended := false, visited := [],
      restart_reads := [] }

/-! ## `nuDust::get_element_index` and `nuDust::load_initial_abundances` -/

/-- The casts `boost::lexical_cast<double>` of all tokens of a line, in order;
the first token that is not a number throws (`none`). -/
def cast_all {K : Type} : List (Option K) → Option (List K)
  | [] => some []
  | none :: _ => none
  | some x :: rest => (cast_all rest).map (fun xs => x :: xs)

/-- The function `nuDust::get_element_index`: the position of the first
occurrence of `elem` in `initial_elements`, as `std::find` and `std::distance`
give it; the `assert` fails when there is none (`none`). -/
def get_element_index (elem : String) : List String → Option ℕ
  | [] => none
  | x :: rest =>
    if x = elem then some 0 else (get_element_index elem rest).map (fun i => i + 1)

/-- A data row of the abundance file after `boost::split`: the first token as
`lexical_cast<int>` reads it, the other tokens as `lexical_cast<double>` reads
them; `none` is a token that the cast rejects. -/
structure AbundRow (K : Type) where
  cell_id : Option Int
  values : List (Option K)

/-- The abundance file: the tokens of the header line and the data rows. -/
structure AbundFile (K : Type) where
  header : List String
  rows : List (AbundRow K)

/-- The body of the `while` loop of `load_initial_abundances` for one data row:
the cell id, the five indices, the `push_back` of every value, the extra slots
for CO and SiO, and the two unconditional calls of `premake`. -/
def load_initial_abundances_row {K : Type} [LinearOrderedField K]
    (initial_elements : List String) (missingCO missingSiO : Bool) (row : AbundRow K)
    (cell_inputs : CellStore K) : Option (CellStore K) := do
  let cell_id ← row.cell_id
  let CO_idx ← get_element_index "CO" initial_elements
  let C_idx ← get_element_index "C" initial_elements
  let O_idx ← get_element_index "O" initial_elements
  let SiO_idx ← get_element_index "SiO" initial_elements
  let Si_idx ← get_element_index "Si" initial_elements
  let vals ← cast_all row.values
  let m1 := cell_inputs.modify cell_id
    (fun c => { c with inp_init_abund := c.inp_init_abund ++ vals })
  let m2 := if missingCO then
      m1.modify cell_id (fun c => { c with inp_init_abund := c.inp_init_abund ++ [0] })
    else m1
  let m3 := if missingSiO then
      m2.modify cell_id (fun c => { c with inp_init_abund := c.inp_init_abund ++ [0] })
    else m2
  let m4 := premake C_idx O_idx CO_idx cell_id m3
  pure (premake Si_idx O_idx SiO_idx cell_id m4)

/-- The header part of `load_initial_abundances`: the species list (the tokens
after the first, then `CO` and `SiO` when `std::find` does not meet them) and
the flags `missingCO` and `missingSiO`. -/
def header_elements (header : List String) : List String × Bool × Bool :=
  let initial_elements := header.drop 1
  let missingCO := (get_element_index "CO" initial_elements).isNone
  let initial_elements := if missingCO then initial_elements ++ ["CO"] else initial_elements
  let missingSiO := (get_element_index "SiO" initial_elements).isNone
  let initial_elements := if missingSiO then initial_elements ++ ["SiO"] else initial_elements
  (initial_elements, missingCO, missingSiO)

/-- The function `nuDust::load_initial_abundances`: the members
`initial_elements` and `cell_inputs` after the call.  A file that cannot be
opened (`none`) ends the run. -/
def load_initial_abundances {K : Type} [LinearOrderedField K]
    (abundance_file : Option (AbundFile K)) (cell_inputs : CellStore K) :
    Option (List String × CellStore K) :=
  match abundance_file with
  | none => none
  | some f =>
    let h := header_elements f.header
    (f.rows.foldlM
      (fun m row => load_initial_abundances_row h.1 h.2.1 h.2.2 row m) cell_inputs).map
      (fun m => (h.1, m))

/-! ## `nuDust::account_for_pileUp`, `nuDust::gen_shock_array_frm_val`, `nuDust::load_shock_params` -/

/-- The inner loop of `account_for_pileUp` on one abundance vector: the entries
of index below `n` are multiplied by `x`. -/
def scale_first {K : Type} [Mul K] (n : ℕ) (x : K) (a : List K) : List K :=
  (a.take n).map (fun v => v * x) ++ a.drop n

/-- The function `nuDust::account_for_pileUp`.  The subscripts
`inp_init_abund[idx]` are unchecked: the loop over the species writes past the
end of an abundance array that is shorter than the species list, which has no
defined result (`none`).  `log_info` says whether the logger records messages
of severity info: the final log line then evaluates
`cell_inputs[1].inp_init_abund[0]`, a read past the end (`none`) when the
record of id 1 is missing or has no abundance, and a read that leaves the
store as it is otherwise. -/
def account_for_pileUp {K : Type} [LinearOrderedField K] (pw : K → K → K) (log_info : Bool)
    (pile_up_factor : K) (initial_elements : List String) (cell_inputs : CellStore K) :
    Option (CellStore K) :=
  let pileUpFactor := pile_up_factor
  if cell_inputs.all (fun ic => initial_elements.length ≤ ic.2.inp_init_abund.length) then
    let m := cell_inputs.map (fun ic =>
      (ic.1, { ic.2 with
        inp_init_abund := scale_first initial_elements.length
          (pileUpFactor * pw (ic.2.inp_shock_time / ic.2.inp_cell_time) (-3))
          ic.2.inp_init_abund }))
    if log_info && (CellStore.at m 1).inp_init_abund.isEmpty then none else some m
  else none

/-- A data row of the size-distribution file after `boost::split`: the cell id,
the cell time and the values, as the casts read them. -/
structure SizeDistRow (K : Type) where
  cell_id : Option Int
  cell_time : Option K
  values : List (Option K)

/-- The size-distribution file: the tokens of the first line (grain names), the
tokens of the second line (representative sizes) and the data rows. -/
structure SizeDistFile (K : Type) where
  names : List String
  sizes : List (Option K)
  rows : List (SizeDistRow K)

/-- The name `net.reactions[gn_id].prods[0]`. -/
def first_product (net : Network) (gn_id : ℕ) : Option String :=
  net.reactions[gn_id]?.bind (fun r => r.prods.head?)

/-- The two nested loops that fill `grn_idx`: a vector of `n_reactions` zeros in
which entry `gn_id` is set to `fn_id` whenever file name `fn_id` equals the
first product of reaction `gn_id`; `fn_id` runs in the outer loop, below the
number of names. -/
def match_grains (SD_grn_names : List String) (net : Network) : List ℕ :=
  (List.range SD_grn_names.length).foldl
    (fun grn_idx fn_id =>
      (List.range net.n_reactions).foldl
        (fun grn_idx gn_id =>
          if SD_grn_names[fn_id]? = first_product net gn_id then grn_idx.set gn_id fn_id
          else grn_idx)
        grn_idx)
    (List.replicate net.n_reactions 0)

/-- The two nested loops that copy the values of a row into `inp_size_dist`:
entry `gid * numBins + sid` is read from `input_SD[grn_idx[gid] * numBins + sid]`. -/
def remap_size_dist {K : Type} [Zero K] (n_reactions numBins : ℕ) (grn_idx : List ℕ)
    (input_SD : List K) (inp_size_dist : List K) : List K :=
  (List.range n_reactions).foldl
    (fun d gid =>
      (List.range numBins).foldl
        (fun d sid =>
          d.set (gid * numBins + sid) (input_SD.getD (grn_idx.getD gid 0 * numBins + sid) 0))
        d)
    inp_size_dist

/-- The members of `nuDust` written by `load_sizeDist`. -/
structure SizeDistLoaded (K : Type) where
  numBins : ℕ
  size_bins_init : List K
  init_bin_edges : List K
  cell_inputs : CellStore K

/-- The body of the `while` loop of `load_sizeDist` for one data row.  A token
that is not a number ends the run. -/
def load_sizeDist_row {K : Type} [Zero K] (net : Network) (numBins : ℕ)
    (size_bins_init init_bin_edges : List K) (grn_idx : List ℕ) (row : SizeDistRow K)
    (cell_inputs : CellStore K) : Option (CellStore K) := do
  let cell_id ← row.cell_id
  let cell_time ← row.cell_time
  let input_SD ← cast_all row.values
  pure (cell_inputs.modify cell_id (fun c =>
    { c with
      inp_cell_time := cell_time
      inp_binSizes := copy_into size_bins_init (resize c.inp_binSizes numBins)
      inp_binEdges := copy_into init_bin_edges (resize c.inp_binEdges (numBins + 1))
      inp_delSZ := fill (resize c.inp_delSZ (net.n_reactions * numBins)) 0
      inp_size_dist := remap_size_dist net.n_reactions numBins grn_idx input_SD
        (resize c.inp_size_dist (net.n_reactions * numBins)) }))

/-- The function `nuDust::load_sizeDist`.  `log10` is `std::log10`, `pw` is
`std::pow`, `std::floor` is the floor of `K`.  The member `size_bins_init` is
empty before the call, the only one that writes it.  A file that cannot be
opened (`none`), or a size that is not a number, ends the run. -/
def load_sizeDist {K : Type} [LinearOrderedField K] [FloorRing K] (pw : K → K → K)
    (log10 : K → K) (sizeDist_file : Option (SizeDistFile K)) (net : Network)
    (cell_inputs : CellStore K) : Option (SizeDistLoaded K) :=
  match sizeDist_file with
  | none => none
  | some f =>
    match cast_all f.sizes with
    | none => none
    | some size_bins_init =>
      let numBins := size_bins_init.length
      let low : K := (⌊log10 (size_bins_init.getD 0 0)⌋ : ℤ)
      let high : K := ((⌊log10 (size_bins_init.getD (numBins - 1) 0)⌋ : ℤ) : K) + 1
      let expDel := (high - low) / (numBins : K)
      let init_bin_edges : List K :=
        (List.range (numBins + 1)).map (fun (n : ℕ) => pw 10 (low + (n : K) * expDel))
      let grn_idx := match_grains f.names net
      (f.rows.foldlM
        (fun m row =>
          load_sizeDist_row net numBins size_bins_init init_bin_edges grn_idx row m)
        cell_inputs).map
        (fun m =>
          { numBins := numBins, size_bins_init := size_bins_init,
            init_bin_edges := init_bin_edges, cell_inputs := m })

/-- A data row of the size-distribution file whose tokens all parse. -/
def parsed_size_row {K : Type} (r : Int × K × List K) : SizeDistRow K :=
  { cell_id := some r.1, cell_time := some r.2.1, values := r.2.2.map some }

/-! ## The index computations of `nuDust::create_simulation_cells` -/

/-- The value of `cell_rank_start_idx` for a map of `T` entries:
`par_rank * cells_per_rank` with `cells_per_rank = T / par_size`. -/
def cell_rank_start_idx (T par_size par_rank : ℕ) : ℕ :=
  par_rank * (T / par_size)

/-- The value first assigned to `cell_end`: the end of the slice of the rank,
not beyond the number of cells. -/
def cell_end_of_slice (T par_size par_rank : ℕ) : ℕ :=
  if cell_rank_start_idx T par_size par_rank + T / par_size < T
  then cell_rank_start_idx T par_size par_rank + T / par_size else T

/-- The value of `cell_end` that the loop sees, after the second assignment. -/
def cell_end (T par_size par_rank : ℕ) : ℕ :=
  min (cell_rank_start_idx T par_size par_rank + 10) T

/-! ## `nuDust::load_environment_data` -/

/-- A token of a line of the environment file: what `lexical_cast<int>` and
`lexical_cast<double>` make of it; `none` is a cast that throws. -/
structure EnvToken (K : Type) where
  as_int : Option Int
  as_double : Option K

/-- The body of the `while` loop of `load_environment_data` for the tokens of one
line, on the local `time` and the member `cell_inputs`.  A line of one token
sets `time`; any other line is read as a cell id and six values, which are
cast before the seven `push_back` calls.  A cast that throws, or a token
that is missing, ends the run. -/
def load_environment_data_row {K : Type} [Zero K] (st : K × CellStore K)
    (line_tokens : List (EnvToken K)) : Option (K × CellStore K) :=
  if line_tokens.length = 1 then
    (line_tokens[0]?.bind (fun tok => tok.as_double)).map (fun time => (time, st.2))
  else do
    let cid ← line_tokens[0]?.bind (fun tok => tok.as_int)
    let temp ← line_tokens[1]?.bind (fun tok => tok.as_double)
    let vol ← line_tokens[2]?.bind (fun tok => tok.as_double)
    let rho ← line_tokens[3]?.bind (fun tok => tok.as_double)
    let press ← line_tokens[4]?.bind (fun tok => tok.as_double)
    let velo ← line_tokens[5]?.bind (fun tok => tok.as_double)
    let x_cm ← line_tokens[6]?.bind (fun tok => tok.as_double)
    pure (st.1, st.2.modify cid (fun c =>
      { c with
        inp_times := c.inp_times ++ [st.1]
        inp_temp := c.inp_temp ++ [temp]
        inp_volumes := c.inp_volumes ++ [vol]
        inp_rho := c.inp_rho ++ [rho]
        inp_pressure := c.inp_pressure ++ [press]
        inp_velo := c.inp_velo ++ [velo]
        inp_x_cm := c.inp_x_cm ++ [x_cm] }))

/-- The function `nuDust::load_environment_data`.  `time` is the value of the
local variable of that name before the first line, which the program does
not initialise.  A file that cannot be opened (`none`) is logged and the run
goes on with `cell_inputs` unchanged. -/
def load_environment_data {K : Type} [Zero K]
    (environment_file : Option (List (List (EnvToken K)))) (time : K)
    (cell_inputs : CellStore K) : Option (CellStore K) :=
  match environment_file with
  | none => some cell_inputs
  | some lines =>
    (lines.foldlM load_environment_data_row (time, cell_inputs)).map (fun st => st.2)

/-- A data row of the environment file whose seven tokens parse. -/
structure EnvData (K : Type) where
  cid : Int
  temp : K
  vol : K
  rho : K
  press : K
  velo : K
  x_cm : K

/-- A token that is a number (its integer cast is not read). -/
def number_token {K : Type} (x : K) : EnvToken K := { as_int := none, as_double := some x }

/-- The tokens of a line of the environment file that parses: a time marker
(one token) or a data row (seven tokens). -/
def parsed_env_row {K : Type} : K ⊕ EnvData K → List (EnvToken K)
  | Sum.inl time => [number_token time]
  | Sum.inr d =>
    [{ as_int := some d.cid, as_double := none }, number_token d.temp, number_token d.vol,
      number_token d.rho, number_token d.press, number_token d.velo, number_token d.x_cm]

/-- The number of data rows that carry the cell id `k`. -/
def env_row_count {K : Type} (k : Int) (rows : List (K ⊕ EnvData K)) : ℕ :=
  rows.countP (fun r => match r with
    | Sum.inl _ => false
    | Sum.inr d => decide (d.cid = k))

/-- The lengths of the seven trajectory arrays of a cell input: times,
temperatures, volumes, densities, pressures, velocities, positions. -/
def trajectory_lengths {K : Type} (c : CellInput K) : List ℕ :=
  [c.inp_times.length, c.inp_temp.length, c.inp_volumes.length, c.inp_rho.length,
    c.inp_pressure.length, c.inp_velo.length, c.inp_x_cm.length]

/-! ## The arithmetic of type `double` -/

/-- The integer nearest to `n / d`; of two integers that are equally near, the
even one. -/
def round_half_even (n d : ℕ) : ℕ :=
  let q := n / d
  let r := n % d
  if 2 * r < d then q
  else if d < 2 * r then q + 1
  else if q % 2 = 0 then q else q + 1

/-- The number of binary digits of `n`; `fuel` bounds the recursion, and `n`
itself is enough of it. -/
def bit_length : ℕ → ℕ → ℕ
  | 0, _ => 0
  | fuel + 1, n => if n = 0 then 0 else bit_length fuel (n / 2) + 1

/-- The exponent `e` of the leading binary digit of `n / d`, for positive `n`
and `d`: `2 ^ e ≤ n / d < 2 ^ (e + 1)`. -/
def floor_log2 (n d : ℕ) : ℤ :=
  let e : ℤ := (bit_length n n : ℤ) - (bit_length d d : ℤ)
  if (if 0 ≤ e then d * 2 ^ e.toNat ≤ n else d ≤ n * 2 ^ (-e).toNat) then e else e - 1

/-- The value of type `double` (IEEE 754 binary64) that is nearest to the
rational `x`, ties to even: a multiple of `2 ^ s` with a significand of at most
53 bits, where `s` is the exponent of the leading digit less 52, and `-1074`
for the subnormal numbers.  Every arithmetic operation on doubles returns this
rounding of its exact result.  Overflow (a result of magnitude `2 ^ 1024` or
more, which the machine replaces by an infinity) is not modelled. -/
def rn64 (x : ℚ) : ℚ :=
  if x = 0 then 0 else
  let n := x.num.natAbs
  let d := x.den
  let s : ℤ := max (floor_log2 n d - 52) (-1074)
  let m := if 0 ≤ s then round_half_even n (d * 2 ^ s.toNat)
    else round_half_even (n * 2 ^ (-s).toNat) d
  let mag : ℚ := if 0 ≤ s then ((m * 2 ^ s.toNat : ℕ) : ℚ)
    else ((m : ℕ) : ℚ) / ((2 ^ (-s).toNat : ℕ) : ℚ)
  if x < 0 then -mag else mag

/-- The three assignments of `premake` with the rounding of the subtraction
made explicit: `rnd` is the rounding of type `double` (`rn64`), and with
`rnd = id` this is `premake_abund`.  The comparison and the copies are exact. -/
def premake_abund_rnd {K : Type} [LinearOrderedField K] (rnd : K → K) (s1 s2 sp : ℕ)
    (a : List K) : List K :=
  let x1 := a.getD s1 0
  let x2 := a.getD s2 0
  if x2 > x1 then
    ((a.set sp x1).set s2 (rnd (x2 - x1))).set s1 0
  else
    ((a.set sp x2).set s1 (rnd (x1 - x2))).set s2 0

/-- The function `nuDust::premake` with the rounding `rnd` of the subtraction
made explicit. -/
def premake_rnd {K : Type} [LinearOrderedField K] (rnd : K → K) (s1 s2 sp : ℕ) (cell_id : Int)
    (cell_inputs : CellStore K) : CellStore K :=
  cell_inputs.modify cell_id
    (fun c => { c with inp_init_abund := premake_abund_rnd rnd s1 s2 sp c.inp_init_abund })

/-- The function `nuDust::gen_size_dist` with the rounding of type `double`
made explicit: `rnd` is applied to the result of every subtraction, division,
multiplication, addition and conversion `static_cast<double>`, one operation at
a time, and `pw` is `std::pow`, which returns a double.  The literals `10.`
and `2.0` are exact.  With `rnd = id` this is `gen_size_dist`. -/
def gen_size_dist_rnd {K : Type} [LinearOrderedField K] (rnd : K → K) (pw : K → K → K)
    (nu_config : Config K) (net : Network) (cell_inputs : CellStore K) :
    Option (SizeDist K) :=
  match nu_config.low_sd_exp, nu_config.high_sd_exp, nu_config.bin_number with
  | some low, some high, some numBins =>
    let expDel := rnd (rnd (high - low) / rnd (numBins : K))
    let init_bin_edges : List K :=
      (List.range (numBins + 1)).map
        (fun (n : ℕ) => pw 10 (rnd (low + rnd (rnd (n : K) * expDel))))
    let init_size_bins : List K :=
      (List.range numBins).map
        (fun (n : ℕ) =>
          rnd (rnd (init_bin_edges.getD n 0 + init_bin_edges.getD (n + 1) 0) / 2))
    some
      { numBins := numBins
        init_bin_edges := init_bin_edges
        init_size_bins := init_size_bins
        cell_inputs := cell_inputs.map (fun ic =>
          (ic.1, gen_size_dist_cell net.n_reactions numBins init_bin_edges init_size_bins ic.2)) }
  | _, _, _ => none

/-! ## Concrete inputs for the evaluations -/

/-- The power with the exponent rounded down to an integer: a computable
stand-in for `std::pow` over `ℚ`, exact at integral exponents. -/
def pow_floor (b e : ℚ) : ℚ := b ^ ⌊e⌋

/-- A network with a single nucleation reaction. -/
def demo_net : Network :=
  { n_reactions := 1, n_nucleation_reactions := 1, reactions := [{ prods := ["C"] }],
    network_label := "net" }

/-- A configuration with two size bins. -/
def demo_config : Config ℚ :=
  { low_sd_exp := none, high_sd_exp := none, bin_number := some 2 }

/-- A cell after the abundance and size-distribution loaders: two gas
abundances, `1 * 2` size-distribution values, no solution vector yet. -/
def demo_cell : CellInput ℚ :=
  { (CellInput.empty : CellInput ℚ) with inp_init_abund := [3, 5], inp_size_dist := [7, 9] }

/-- Seven cells, with the ids `10, 11, ..., 16`. -/
def seven_cells : CellStore ℚ :=
  (List.range 7).map (fun i => (((10 + i : ℕ) : Int), demo_cell))

/-- A file system without output files. -/
def no_output (_ : Int) : Bool := false

/-- A file system without restart files. -/
def no_restart (_ : Int) : Option (TokenFile ℚ) := none

/-- A restart file of four lines; one token of the second line is not a number. -/
def demo_restart_file : TokenFile ℚ :=
  [[some 5], [some 1, none, some 2], [some 3], [some 4]]

/-- A file system whose only restart file belongs to cell `10`. -/
def restart_of_ten (k : Int) : Option (TokenFile ℚ) :=
  if k = 10 then some demo_restart_file else none

/-- A file system whose only output file belongs to cell `10`. -/
def output_of_ten (k : Int) : Bool := decide (k = 10)

/-- A cell holding the abundances `3`, `5` and an empty product slot. -/
def abund_cell : CellInput ℚ :=
  { (CellInput.empty : CellInput ℚ) with inp_init_abund := [3, 5, 0] }

/-- An abundance file whose header names CO: one cell, with C 3, O 5, Si 1,
Fe 9 and CO 7. -/
def abund_file_with_CO : AbundFile ℚ :=
  { header := ["cell", "C", "O", "Si", "Fe", "CO"],
    rows := [{ cell_id := some 1, values := [some 3, some 5, some 1, some 9, some 7] }] }

/-- The header of an abundance file without CO and SiO. -/
def atoms_header : List String := ["cell", "C", "O", "Si", "Fe"]

/-- The data rows of two cells, one value per species of `atoms_header`. -/
def atoms_rows : List (Int × List ℚ) := [(1, [3, 5, 1, 9]), (2, [4, 2, 6, 8])]

/-- A network with two reactions, one of them a nucleation reaction. -/
def mixed_net : Network :=
  { n_reactions := 2, n_nucleation_reactions := 1,
    reactions := [{ prods := ["C"] }, { prods := ["CO"] }], network_label := "net" }

/-- A configuration for three size bins between the exponents `-7` and `-4`. -/
def decade_config : Config ℚ :=
  { low_sd_exp := some (-7), high_sd_exp := some (-4), bin_number := some 3 }

/-- The integral part of the decimal logarithm: a computable stand-in for
`std::log10` over `ℚ`, exact after `std::floor`. -/
def log10_floor (x : ℚ) : ℚ := (Int.log 10 x : ℤ)

/-- A network with the grains `A` and `B`. -/
def grains_net : Network :=
  { n_reactions := 2, n_nucleation_reactions := 2,
    reactions := [{ prods := ["A"] }, { prods := ["B"] }], network_label := "net" }

/-- A size-distribution file with the grains `X` and `A`, one size bin, and one
row for cell 0 with the value 7 for `X` and 9 for `A`. -/
def alias_file : SizeDistFile ℚ :=
  { names := ["X", "A"], sizes := [some 1],
    rows := [{ cell_id := some 0, cell_time := some 2, values := [some 7, some 9] }] }

/-- A size-distribution file with one grain and three size bins. -/
def three_bin_file : SizeDistFile ℚ :=
  { names := ["C"], sizes := [some 1, some 10, some 100],
    rows := [{ cell_id := some 0, cell_time := some 2, values := [some 6, some 7, some 8] }] }

/-- A size-distribution file that names the grain `A` twice, with one size bin
and one row for cell 0 with the values 7 and 9. -/
def twice_file : SizeDistFile ℚ :=
  { names := ["A", "A"], sizes := [some 1],
    rows := [{ cell_id := some 0, cell_time := some 2, values := [some 7, some 9] }] }

/-- A restart file in the layout of three lines: the start time 5, the
velocity deficits 1 and 2, and on the third line the delta sizes 11 and 12
followed by the solution vector 21, 22, 23. -/
def legacy_restart_file : TokenFile ℚ :=
  [[some 5], [some 1, some 2], [some 11, some 12, some 21, some 22, some 23]]

/-- A cell input as the loaders leave it: one velocity deficit, two zero delta
sizes and a solution vector of one entry. -/
def loaded_cell : CellInput ℚ :=
  { (CellInput.empty : CellInput ℚ) with
    inp_vd := [4], inp_delSZ := [0, 0], inp_solution_vector := [6] }

/-- An environment file: the marker 100, a row for cell 1, a row for cell 2,
the marker 200, a second row for cell 1. -/
def demo_env_rows : List (ℚ ⊕ EnvData ℚ) :=
  [Sum.inl 100, Sum.inr { cid := 1, temp := 11, vol := 12, rho := 13, press := 14, velo := 15, x_cm := 16 },
   Sum.inr { cid := 2, temp := 21, vol := 22, rho := 23, press := 24, velo := 25, x_cm := 26 },
   Sum.inl 200, Sum.inr { cid := 1, temp := 31, vol := 32, rho := 33, press := 34, velo := 35, x_cm := 36 }]

/-- A computable stand-in for `std::pow` on doubles: at an integral exponent
the double nearest to the exact power. -/
def pow_floor64 (b e : ℚ) : ℚ := rn64 (pow_floor b e)

/-- A cell holding the doubles `0.001` and `0.009` and an empty product slot. -/
def milli_cell : CellInput ℚ :=
  { (CellInput.empty : CellInput ℚ) with inp_init_abund := [rn64 (1 / 1000), rn64 (9 / 1000), 0] }

/-- The invariant of the scheduling loop for an id `k` whose output file
exists: no cell of that id, no restart read of that id, input unchanged. -/
def SkipInv {K : Type} [Zero K] (m0 : CellStore K) (k : Int) (st : SimCells K) : Prop :=
  (∀ c ∈ st.cells, c.cid ≠ k) ∧ k ∉ st.restart_reads ∧ st.cell_inputs.at k = m0.at k

/-! ## Lemmas on the cell store -/

theorem CellStore.lookup_map_modify {K : Type} (m : CellStore K) (k k' : Int)
    (f : CellInput K → CellInput K) :
    List.lookup k' (m.map (fun e => if e.1 = k then (e.1, f e.2) else e))
      = if k' = k then (List.lookup k' m).map f else List.lookup k' m := by
  induction m with
  | nil => simp
  | cons e rest ih =>
    obtain ⟨a, b⟩ := e
    by_cases hk : k' = k
    · subst hk
      by_cases ha : a = k'
      · subst ha; simp
      · have hb : (k' == a) = false := by simpa using fun h => ha h.symm
        simp [List.lookup_cons, ha, hb] at ih ⊢
        exact ih
    · by_cases ha : a = k
      · subst ha
        have hb : (k' == a) = false := by simpa using hk
        simp [List.lookup_cons, hb, hk] at ih ⊢
        exact ih
      · by_cases hc : k' = a
        · subst hc; simp [ha, hk]
        · have hb : (k' == a) = false := by simpa using hc
          simp [List.lookup_cons, hb, hk, ha] at ih ⊢
          exact ih

theorem CellStore.lookup_insertNew {K : Type} (m : CellStore K) (k k' : Int) (v : CellInput K)
    (hm : List.lookup k m = none) :
    List.lookup k' (CellStore.insertNew k v m) = if k' = k then some v else List.lookup k' m := by
  induction m with
  | nil =>
    by_cases hk : k' = k
    · subst hk; simp [CellStore.insertNew]
    · have hb : (k' == k) = false := by simpa using hk
      simp [CellStore.insertNew, List.lookup_cons, hb, hk]
  | cons e rest ih =>
    obtain ⟨a, b⟩ := e
    have hka : (k == a) = false := by
      cases h : (k == a) with
      | false => rfl
      | true => simp [List.lookup_cons, h] at hm
    have hrest : List.lookup k rest = none := by
      simpa [List.lookup_cons, hka] using hm
    have hne : k ≠ a := by simpa using hka
    unfold CellStore.insertNew
    by_cases hlt : k < a
    · by_cases hk : k' = k
      · subst hk; simp [hlt]
      · have hb : (k' == k) = false := by simpa using hk
        simp [hlt, List.lookup_cons, hb, hk]
    · by_cases hk : k' = k
      · subst hk
        simp [hlt, List.lookup_cons, hka, ih hrest]
      · simp only [hlt, if_false, List.lookup_cons, ih hrest, hk]

theorem CellStore.at_modify_self {K : Type} [Zero K] (m : CellStore K) (k : Int)
    (f : CellInput K → CellInput K) : (m.modify k f).at k = f (m.at k) := by
  unfold CellStore.modify CellStore.at
  cases h : List.lookup k m with
  | none => simp [CellStore.lookup_insertNew m k k _ h]
  | some v => simp [CellStore.lookup_map_modify, h]

theorem CellStore.at_modify_of_ne {K : Type} [Zero K] (m : CellStore K) (k k' : Int)
    (f : CellInput K → CellInput K) (hk : k' ≠ k) : (m.modify k f).at k' = m.at k' := by
  unfold CellStore.modify CellStore.at
  cases h : List.lookup k m with
  | none => simp [CellStore.lookup_insertNew m k k' _ h, hk]
  | some v => simp [CellStore.lookup_map_modify, hk]


theorem premake_abund_spec {K : Type} [LinearOrderedField K] (s1 s2 sp : ℕ) (a : List K)
    (x1 x2 : K) (h12 : s1 ≠ s2) (h1p : s1 ≠ sp) (h2p : s2 ≠ sp)
    (hx1 : a[s1]? = some x1) (hx2 : a[s2]? = some x2) (hsp : sp < a.length) :
    (premake_abund s1 s2 sp a)[sp]? = some (min x1 x2) ∧
    (x2 < x1 → (premake_abund s1 s2 sp a)[s1]? = some |x1 - x2| ∧
      (premake_abund s1 s2 sp a)[s2]? = some 0) ∧
    (x1 < x2 → (premake_abund s1 s2 sp a)[s2]? = some |x1 - x2| ∧
      (premake_abund s1 s2 sp a)[s1]? = some 0) ∧
    (x1 = x2 → (premake_abund s1 s2 sp a)[s1]? = some 0 ∧
      (premake_abund s1 s2 sp a)[s2]? = some 0 ∧ (premake_abund s1 s2 sp a)[sp]? = some x1) := by
  have hl1 : s1 < a.length := by
    by_contra h
    rw [List.getElem?_eq_none (by omega)] at hx1
    exact Option.noConfusion hx1
  have hl2 : s2 < a.length := by
    by_contra h
    rw [List.getElem?_eq_none (by omega)] at hx2
    exact Option.noConfusion hx2
  have e1 : a.getD s1 0 = x1 := by simp [hx1]
  have e2 : a.getD s2 0 = x2 := by simp [hx2]
  unfold premake_abund
  simp only [e1, e2]
  by_cases hlt : x2 > x1
  · simp only [hlt, if_true]
    have hmin : min x1 x2 = x1 := min_eq_left hlt.le
    have habs : |x1 - x2| = x2 - x1 := by
      rw [abs_sub_comm]; exact abs_of_pos (sub_pos.mpr hlt)
    refine ⟨?_, ?_, ?_, ?_⟩
    · simp [List.getElem?_set, h1p, h2p, hsp, hmin]
    · intro h; exact absurd h (not_lt.mpr hlt.le)
    · intro _
      simp [List.getElem?_set, h12, h1p, h2p, hl1, hl2, habs, Ne.symm h12]
    · intro h; exact absurd h (ne_of_lt hlt)
  · simp only [hlt, if_false]
    have hle : x2 ≤ x1 := not_lt.mp hlt
    have hmin : min x1 x2 = x2 := min_eq_right hle
    have habs : |x1 - x2| = x1 - x2 := abs_of_nonneg (sub_nonneg.mpr hle)
    refine ⟨?_, ?_, ?_, ?_⟩
    · simp [List.getElem?_set, h1p, h2p, hsp, hmin]
    · intro _
      simp [List.getElem?_set, h12, h1p, h2p, hl1, hl2, habs, Ne.symm h12]
    · intro h; exact h.elim
    · intro h
      subst h
      simp [List.getElem?_set, h12, h1p, h2p, hl1, hl2, hsp, Ne.symm h12]
theorem premake_at {K : Type} [LinearOrderedField K] (s1 s2 sp : ℕ) (cell_id : Int)
    (cell_inputs : CellStore K) :
    ((premake s1 s2 sp cell_id cell_inputs).at cell_id).inp_init_abund
      = premake_abund s1 s2 sp (cell_inputs.at cell_id).inp_init_abund := by
  unfold premake
  rw [CellStore.at_modify_self]

/-- C6: for nonnegative abundances `x1`, `x2` stored at three distinct indices `s1`, `s2`, `sp`
of a cell, after `premake` the product entry is `min x1 x2`, the entry of the larger input is
`|x1 - x2|` and the entry of the smaller input is `0`; when `x1 = x2` both reactant entries are
`0` and the product is `x1`. -/
theorem premake_min_absdiff {K : Type} [LinearOrderedField K] (s1 s2 sp : ℕ) (cell_id : Int)
    (cell_inputs : CellStore K) (x1 x2 : K)
    (h12 : s1 ≠ s2) (h1p : s1 ≠ sp) (h2p : s2 ≠ sp)
    (hx1 : (cell_inputs.at cell_id).inp_init_abund[s1]? = some x1)
    (hx2 : (cell_inputs.at cell_id).inp_init_abund[s2]? = some x2)
    (hsp : sp < (cell_inputs.at cell_id).inp_init_abund.length)
    (_h1 : 0 ≤ x1) (_h2 : 0 ≤ x2) :
    ((premake s1 s2 sp cell_id cell_inputs).at cell_id).inp_init_abund[sp]? = some (min x1 x2) ∧
    (x2 < x1 →
      ((premake s1 s2 sp cell_id cell_inputs).at cell_id).inp_init_abund[s1]? = some |x1 - x2| ∧
      ((premake s1 s2 sp cell_id cell_inputs).at cell_id).inp_init_abund[s2]? = some 0) ∧
    (x1 < x2 →
      ((premake s1 s2 sp cell_id cell_inputs).at cell_id).inp_init_abund[s2]? = some |x1 - x2| ∧
      ((premake s1 s2 sp cell_id cell_inputs).at cell_id).inp_init_abund[s1]? = some 0) ∧
    (x1 = x2 →
      ((premake s1 s2 sp cell_id cell_inputs).at cell_id).inp_init_abund[s1]? = some 0 ∧
      ((premake s1 s2 sp cell_id cell_inputs).at cell_id).inp_init_abund[s2]? = some 0 ∧
      ((premake s1 s2 sp cell_id cell_inputs).at cell_id).inp_init_abund[sp]? = some x1) := by
  rw [premake_at]
  exact premake_abund_spec s1 s2 sp _ x1 x2 h12 h1p h2p hx1 hx2 hsp


/-- Witness of C6: abundances `3` and `5` at the indices 0 and 1, the product at index 2. -/
theorem premake_min_absdiff_witness :
    ((premake 0 1 2 7 [(7, abund_cell)]).at 7).inp_init_abund[2]? = some (min (3 : ℚ) 5) ∧
    ((premake 0 1 2 7 [(7, abund_cell)]).at 7).inp_init_abund[1]? = some |(3 : ℚ) - 5| ∧
    ((premake 0 1 2 7 [(7, abund_cell)]).at 7).inp_init_abund[0]? = some 0 :=
  have h := premake_min_absdiff (K := ℚ) 0 1 2 7 [(7, abund_cell)] 3 5 (by decide) (by decide)
    (by decide) (by rfl) (by rfl) (by decide) (by norm_num) (by norm_num)
  ⟨h.1, (h.2.2.1 (by norm_num)).1, (h.2.2.1 (by norm_num)).2⟩

theorem create_restart_cells_at_of_ne {K : Type} [Zero K]
    (restart_file : Int → Option (TokenFile K)) (cid k : Int) (m m' : CellStore K)
    (h : create_restart_cells restart_file cid m = some m') (hk : k ≠ cid) :
    m'.at k = m.at k := by
  unfold create_restart_cells at h
  cases hf : restart_file cid with
  | none => simp [hf] at h
  | some f =>
    simp only [hf] at h
    cases hc : create_restart_cells_input f (m.at cid) with
    | none => simp [hc] at h
    | some c =>
      simp only [hc, Option.map_some', Option.some.injEq] at h
      rw [← h]
      exact CellStore.at_modify_of_ne m cid k _ hk

theorem create_simulation_cells_step_skip {K : Type} [Zero K] (output_exists : Int → Bool)
    (restart_file : Int → Option (TokenFile K)) (m0 : CellStore K) (k : Int)
    (hk : output_exists k = true) (i : ℕ) (cid : Int) (st : SimCells K)
    (h : SkipInv m0 k st) :
    SkipInv m0 k (create_simulation_cells_step output_exists restart_file i cid st) := by
  obtain ⟨hc, hr, ha⟩ := h
  unfold create_simulation_cells_step
  by_cases ho : output_exists cid = true
  · simp only [ho, Bool.not_true, Bool.false_eq_true, if_false]
    exact ⟨hc, hr, ha⟩
  · have hne : k ≠ cid := fun e => ho (e ▸ hk)
    have ho' : output_exists cid = false := by simpa using ho
    simp only [ho', Bool.not_false, if_true]
    by_cases hrs : (restart_file cid).isSome = true
    · simp only [hrs, Bool.not_true, Bool.false_eq_true, if_false]
      cases hcr : create_restart_cells restart_file cid st.cell_inputs with
      | none =>
        refine ⟨hc, ?_, ha⟩
        simp only [List.mem_append, List.mem_singleton, not_or]
        exact ⟨hr, hne⟩
      | some m' =>
        refine ⟨hc, ?_, ?_⟩
        · simp only [List.mem_append, List.mem_singleton, not_or]
          exact ⟨hr, hne⟩
        · show m'.at k = m0.at k
          rw [create_restart_cells_at_of_ne restart_file cid k _ _ hcr hne]
          exact ha
    · have hrs' : (restart_file cid).isSome = false := by simpa using hrs
      simp only [hrs', Bool.not_false, if_true]
      refine ⟨?_, hr, ha⟩
      intro c hcm
      simp only [List.mem_append, List.mem_singleton] at hcm
      rcases hcm with hcm | hcm
      · exact hc c hcm
      · subst hcm; exact fun e => hne e.symm

theorem create_simulation_cells_loop_skip {K : Type} [Zero K] (output_exists : Int → Bool)
    (restart_file : Int → Option (TokenFile K)) (m0 : CellStore K) (k : Int)
    (hk : output_exists k = true) (cell_end : ℕ) (it : List (Int × CellInput K)) :
    ∀ (i : ℕ) (st : SimCells K), SkipInv m0 k st →
      SkipInv m0 k (create_simulation_cells_loop output_exists restart_file cell_end i it st) := by
  induction it with
  | nil => intro i st h; simpa [create_simulation_cells_loop] using h
  | cons ic it ih =>
    intro i st h
    unfold create_simulation_cells_loop
    by_cases hc : i < cell_end ∧ st.ended = false
    · rw [if_pos hc]
      exact ih _ _ (create_simulation_cells_step_skip output_exists restart_file m0 k hk i ic.1 st h)
    · rw [if_neg hc]; exact h

/-- C5: a cell id whose completed-output file exists is skipped by `create_simulation_cells`: no
`Cell` is instantiated for it, its restart file is not read, and its cell input is unchanged,
whether or not a restart file exists. -/
theorem create_simulation_cells_skips_completed {K : Type} [Zero K] (par_size par_rank : ℕ)
    (output_exists : Int → Bool) (restart_file : Int → Option (TokenFile K))
    (cell_inputs : CellStore K) (k : Int) (hk : output_exists k = true) :
    (∀ c ∈ (create_simulation_cells par_size par_rank output_exists restart_file cell_inputs).cells,
      c.cid ≠ k) ∧
    k ∉ (create_simulation_cells par_size par_rank output_exists restart_file
      cell_inputs).restart_reads ∧
    (create_simulation_cells par_size par_rank output_exists restart_file cell_inputs).cell_inputs.at k
      = cell_inputs.at k := by
  unfold create_simulation_cells
  exact create_simulation_cells_loop_skip output_exists restart_file cell_inputs k hk _ _ _ _
    ⟨by simp, by simp, rfl⟩

/-- Witness of C5: cell 10 has an output file and a restart file; it is visited, no cell is made
for it, its restart file is not read and its input is unchanged. -/
theorem create_simulation_cells_skips_completed_witness :
    output_of_ten 10 = true ∧ (restart_of_ten 10).isSome = true ∧
    ((∀ c ∈ (create_simulation_cells 1 0 output_of_ten restart_of_ten
        [(10, demo_cell), (11, demo_cell)]).cells, c.cid ≠ 10) ∧
      10 ∉ (create_simulation_cells 1 0 output_of_ten restart_of_ten
        [(10, demo_cell), (11, demo_cell)]).restart_reads ∧
      (create_simulation_cells 1 0 output_of_ten restart_of_ten
        [(10, demo_cell), (11, demo_cell)]).cell_inputs.at 10
        = CellStore.at [(10, demo_cell), (11, demo_cell)] 10) :=
  ⟨by decide, by decide,
    create_simulation_cells_skips_completed 1 0 output_of_ten restart_of_ten
      [(10, demo_cell), (11, demo_cell)] 10 (by decide)⟩

/-! ## Sputtering coefficients -/

/-- Counterexample to C7 as stated: for grain mass 12 and ion mass 12 (mass ratio 1), over the
reals with the real power, alpha is `0.1625`, not `0.3125`. -/
theorem alpha_at_one_counterexample :
    (sputter_pair Real.rpow 1 12 12).alpha = 0.1625 ∧
    (sputter_pair Real.rpow 1 12 12).alpha ≠ 0.3125 := by
  simp only [sputter_pair, numbers.one, numbers.onehalf, numbers.onefourth, square]
  norm_num

/-- C7 (amended): alpha is `0.2` when the mass ratio `md / mi` is `0.5`; when the mass ratio is `1`
alpha is given by the last branch, `0.1 * (mi / md) + 0.25 * (md / mi - 0.5) ^ 2`, whatever the
power function, and equals `0.1625`. -/
theorem alpha_boundary_values {K : Type} [LinearOrderedField K] (pw : K → K → K)
    (u0 md mi : K) :
    (md / mi = 0.5 → (sputter_pair pw u0 md mi).alpha = 0.2) ∧
    (md / mi = 1 →
      (sputter_pair pw u0 md mi).alpha = 0.1 * (mi / md) + 0.25 * (md / mi - 0.5) ^ 2 ∧
      (sputter_pair pw u0 md mi).alpha = 0.1625) := by
  constructor
  · intro h
    simp only [sputter_pair, numbers.one, numbers.onehalf, h]
    norm_num
  · intro h
    have hmi : mi ≠ 0 := by
      rintro rfl
      simp at h
    have hmd : md = mi := by
      field_simp at h
      exact h
    have hinv : mi / md = 1 := by
      rw [hmd]; exact div_self hmi
    simp only [sputter_pair, numbers.one, numbers.onehalf, numbers.onefourth, square, h, hinv]
    norm_num

/-- Witness of C7 (amended): grain mass 6 and ion mass 12 give the ratio `0.5`, grain mass 12 and
ion mass 12 give the ratio `1`. -/
theorem alpha_boundary_values_witness :
    (sputter_pair pow_floor 1 6 12).alpha = 0.2 ∧
    (sputter_pair pow_floor 1 12 12).alpha = 0.1625 :=
  ⟨(alpha_boundary_values pow_floor 1 6 12).1 (by norm_num),
   ((alpha_boundary_values pow_floor 1 12 12).2 (by norm_num)).2⟩

/-- C8: for positive ion mass `mi`, grain mass `md` and binding energy `u0`, the threshold energy
is `8 * u0 * pw (mi / md) (1 / 3)` when `mi / md > 0.3`, and `u0 / (g * (1 - g))` with
`g = 4 * mi * md / (mi + md) ^ 2` otherwise; `mi / md = 0.3` takes the second formula. -/
theorem Eth_branch_selection {K : Type} [LinearOrderedField K] (pw : K → K → K)
    (u0 md mi : K) (_hmi : 0 < mi) (_hmd : 0 < md) (_hu0 : 0 < u0) :
    (mi / md > 0.3 → (sputter_pair pw u0 md mi).Eth = 8 * u0 * pw (mi / md) (1 / 3)) ∧
    (mi / md ≤ 0.3 → (sputter_pair pw u0 md mi).Eth
        = u0 / (4 * mi * md / (mi + md) ^ 2 * (1 - 4 * mi * md / (mi + md) ^ 2))) ∧
    (mi / md = 0.3 → (sputter_pair pw u0 md mi).Eth
        = u0 / (4 * mi * md / (mi + md) ^ 2 * (1 - 4 * mi * md / (mi + md) ^ 2))) := by
  have key : mi / md ≤ 0.3 → (sputter_pair pw u0 md mi).Eth
        = u0 / (4 * mi * md / (mi + md) ^ 2 * (1 - 4 * mi * md / (mi + md) ^ 2)) := by
    intro h
    have h' : ¬ (mi / md > 0.3) := not_lt.mpr h
    simp only [sputter_pair, numbers.four, square, h', if_false, pow_two]
  refine ⟨?_, key, fun h => key h.le⟩
  intro h
  simp only [sputter_pair, numbers.eight, numbers.onethird, h, if_true]

/-- Witness of C8: ion mass 3, grain mass 10, binding energy 1, on the boundary `mi / md = 0.3`,
takes the second formula. -/
theorem Eth_branch_selection_witness :
    (sputter_pair pow_floor 1 10 3).Eth
      = 1 / (4 * 3 * 10 / (3 + 10) ^ 2 * (1 - 4 * 3 * 10 / (3 + 10) ^ 2)) :=
  (Eth_branch_selection pow_floor 1 10 3 (by norm_num) (by norm_num) (by norm_num)).2.2
    (by norm_num)

/-! ## The solution vector -/

theorem generate_sol_vector_cell_length {K : Type} [Zero K]
    (N_MOMENTS numReact numGas numBins : ℕ) (c : CellInput K) :
    (generate_sol_vector_cell N_MOMENTS numReact numGas numBins c).inp_solution_vector.length
      = (numGas + N_MOMENTS * numReact + numReact * numBins)
        + (c.inp_init_abund.length + N_MOMENTS * numReact + c.inp_size_dist.length) := by
  simp only [generate_sol_vector_cell, resize, List.length_append, List.length_take,
    List.length_replicate]
  omega

/-- C1: evaluation of `generate_sol_vector` on a cell with two abundances, one nucleation
reaction, four moments and two bins: the abundance array has length `numGas = 2`, the size-distribution
array length `numReact * numBins = 2`, and the solution vector has length 16, twice
`2 + 4 * 1 + 1 * 2 = 8`. -/
theorem generate_sol_vector_length_doubled :
    demo_cell.inp_init_abund.length = ["C", "O"].length ∧
    demo_cell.inp_size_dist.length = demo_net.n_nucleation_reactions * 2 ∧
    ((generate_sol_vector 4 demo_net ["C", "O"] demo_config [(0, demo_cell)]).at
      0).inp_solution_vector.length = 16 ∧
    (16 : ℕ) ≠ 2 + 4 * 1 + 1 * 2 := by
  decide

/-- C2: evaluation of `generate_sol_vector` on the same cell: the solution vector starts with
eight zeros left by `resize`; the abundances `3, 5` sit at positions 8 and 9, not 0 and 1, and the
size-distribution values `7, 9` at positions 14 and 15, not 6 and 7. -/
theorem generate_sol_vector_layout_shifted :
    ((generate_sol_vector 4 demo_net ["C", "O"] demo_config [(0, demo_cell)]).at
      0).inp_solution_vector = [0, 0, 0, 0, 0, 0, 0, 0, 3, 5, 0, 0, 0, 0, 7, 9] ∧
    ((generate_sol_vector 4 demo_net ["C", "O"] demo_config [(0, demo_cell)]).at
      0).inp_solution_vector[0]? = some 0 ∧
    demo_cell.inp_init_abund[0]? = some 3 ∧
    ((generate_sol_vector 4 demo_net ["C", "O"] demo_config [(0, demo_cell)]).at
      0).inp_solution_vector[2 + 4 * 1 + 0]? = some 0 ∧
    demo_cell.inp_size_dist[0]? = some 7 := by
  decide

/-! ## The scheduler -/

theorem create_simulation_cells_step_visited {K : Type} [Zero K] (output_exists : Int → Bool)
    (restart_file : Int → Option (TokenFile K)) (i : ℕ) (cid : Int) (st : SimCells K) :
    (create_simulation_cells_step output_exists restart_file i cid st).visited
      = st.visited ++ [i] := by
  unfold create_simulation_cells_step
  by_cases ho : output_exists cid = true
  · simp [ho]
  · have ho' : output_exists cid = false := by simpa using ho
    by_cases hrs : (restart_file cid).isSome = true
    · cases hcr : create_restart_cells restart_file cid st.cell_inputs <;> simp [ho', hrs, hcr]
    · have hrs' : (restart_file cid).isSome = false := by simpa using hrs
      simp [ho', hrs']

theorem create_simulation_cells_step_ended {K : Type} [Zero K] (output_exists : Int → Bool)
    (restart_file : Int → Option (TokenFile K))
    (hgood : ∀ k f, restart_file k = some f → ∃ t, (f.line 0).head? = some (some t))
    (i : ℕ) (cid : Int) (st : SimCells K) (hst : st.ended = false) :
    (create_simulation_cells_step output_exists restart_file i cid st).ended = false := by
  unfold create_simulation_cells_step
  by_cases ho : output_exists cid = true
  · simp [ho, hst]
  · have ho' : output_exists cid = false := by simpa using ho
    cases hf : restart_file cid with
    | none => simp [ho', hf, hst]
    | some f =>
      obtain ⟨t, ht⟩ := hgood cid f hf
      simp [ho', hf, create_restart_cells, create_restart_cells_input, ht, hst]

theorem create_simulation_cells_loop_visited {K : Type} [Zero K] (output_exists : Int → Bool)
    (restart_file : Int → Option (TokenFile K))
    (hgood : ∀ k f, restart_file k = some f → ∃ t, (f.line 0).head? = some (some t))
    (cell_end : ℕ) (it : List (Int × CellInput K)) :
    ∀ (i : ℕ) (st : SimCells K), st.ended = false →
      (create_simulation_cells_loop output_exists restart_file cell_end i it st).visited
        = st.visited ++ List.range' i (min it.length (cell_end - i)) := by
  induction it with
  | nil => intro i st _; simp [create_simulation_cells_loop]
  | cons ic it ih =>
    intro i st hst
    unfold create_simulation_cells_loop
    by_cases hc : i < cell_end
    · rw [if_pos ⟨hc, hst⟩,
        ih _ _ (create_simulation_cells_step_ended output_exists restart_file hgood i ic.1 st hst),
        create_simulation_cells_step_visited]
      have e : min (ic :: it).length (cell_end - i) = min it.length (cell_end - (i + 1)) + 1 := by
        simp only [List.length_cons]; omega
      rw [e, List.range'_succ, List.append_assoc]
      rfl
    · rw [if_neg (fun h => hc h.1)]
      have e : cell_end - i = 0 := by omega
      simp [e]

/-- The positions for which the loop body of `create_simulation_cells` runs, when every restart
file that exists starts with a number: the positions from `par_rank * (T / par_size)` up to, not
including, `min (par_rank * (T / par_size) + 10) T`; the per-rank count bounds nothing. -/
theorem create_simulation_cells_visited {K : Type} [Zero K] (par_size par_rank : ℕ)
    (output_exists : Int → Bool) (restart_file : Int → Option (TokenFile K))
    (hgood : ∀ k f, restart_file k = some f → ∃ t, (f.line 0).head? = some (some t))
    (cell_inputs : CellStore K) :
    (create_simulation_cells par_size par_rank output_exists restart_file cell_inputs).visited
      = List.range' (par_rank * (cell_inputs.length / par_size))
          (min (par_rank * (cell_inputs.length / par_size) + 10) cell_inputs.length
            - par_rank * (cell_inputs.length / par_size)) := by
  unfold create_simulation_cells
  simp only []
  rw [create_simulation_cells_loop_visited output_exists restart_file hgood _ _ _ _ rfl]
  simp only [List.nil_append, List.length_drop]
  congr 1
  omega

/-- C3: evaluation of `create_simulation_cells` for seven cells on two ranks (three cells per
rank): rank 0 runs the loop body at the positions 0 to 6 and rank 1 at the positions 3 to 6, not at
`[0, 3)` and `[3, 6)`; position 6 is visited by both ranks. -/
theorem create_simulation_cells_seven_two :
    seven_cells.length / 2 = 3 ∧
    (create_simulation_cells 2 0 no_output no_restart seven_cells).visited
      = [0, 1, 2, 3, 4, 5, 6] ∧
    (create_simulation_cells 2 1 no_output no_restart seven_cells).visited = [3, 4, 5, 6] ∧
    (create_simulation_cells 2 0 no_output no_restart seven_cells).visited ≠ [0, 1, 2] ∧
    (create_simulation_cells 2 1 no_output no_restart seven_cells).visited ≠ [3, 4, 5] := by
  decide

/-- C4: evaluation of `create_simulation_cells` on a single cell of id 10 that has a restart file
and no output file: the restart file is read (the start time becomes 5), but the list of cells
stays empty. -/
theorem create_simulation_cells_restart_no_cell :
    no_output 10 = false ∧ (restart_of_ten 10).isSome = true ∧
    (create_simulation_cells 1 0 no_output restart_of_ten [(10, demo_cell)]).visited = [0] ∧
    (create_simulation_cells 1 0 no_output restart_of_ten [(10, demo_cell)]).restart_reads
      = [10] ∧
    ((create_simulation_cells 1 0 no_output restart_of_ten [(10, demo_cell)]).cell_inputs.at
      10).sim_start_time = 5 ∧
    (create_simulation_cells 1 0 no_output restart_of_ten [(10, demo_cell)]).ended = false ∧
    (create_simulation_cells 1 0 no_output restart_of_ten [(10, demo_cell)]).cells.map
      (fun c => c.cid) = [] := by
  decide

/-- C10: evaluation of `create_simulation_cells` for seven cells on two ranks: the positions 3 to
6 are visited by rank 0 and by rank 1, and the cells of ids 13 to 16 are instantiated by both. -/
theorem create_simulation_cells_ranks_overlap :
    (create_simulation_cells 2 0 no_output no_restart seven_cells).cells.map (fun c => c.cid)
      = [10, 11, 12, 13, 14, 15, 16] ∧
    (create_simulation_cells 2 1 no_output no_restart seven_cells).cells.map (fun c => c.cid)
      = [13, 14, 15, 16] ∧
    3 ∈ (create_simulation_cells 2 0 no_output no_restart seven_cells).visited ∧
    3 ∈ (create_simulation_cells 2 1 no_output no_restart seven_cells).visited := by
  decide

/-! ## Rounding to binary64 -/

/-- Values of `rn64`: the doubles `0.1`, `0.001`, `0.009` and `5.5e-6`; integers are kept up to
`2 ^ 53`; a tie goes to the even significand (`2 ^ 53 + 1` down, `2 ^ 53 + 3` up); the smallest
subnormal number is `2 ^ (-1074)`, and half of it rounds to `0`. -/
theorem rn64_values :
    rn64 (1 / 10) = 3602879701896397 / 2 ^ 55 ∧
    rn64 (1 / 1000) = 1152921504606847 / 2 ^ 60 ∧
    rn64 (9 / 1000) = 5188146770730811 / 2 ^ 59 ∧
    rn64 (55 / 10 ^ 7) = 6493253913945762 / 2 ^ 70 ∧
    rn64 (-7) = -7 ∧ rn64 (2 ^ 53) = 2 ^ 53 ∧
    rn64 (2 ^ 53 + 1) = 2 ^ 53 ∧ rn64 (2 ^ 53 + 3) = 2 ^ 53 + 4 ∧
    rn64 (1 / 2 ^ 1074) = 1 / 2 ^ 1074 ∧ rn64 (1 / 2 ^ 1075) = 0 ∧
    rn64 (3 / 2 ^ 1075) = 2 / 2 ^ 1074 := by
  decide!

/-- Rounding to binary64 keeps the sign. -/
theorem rn64_nonneg (x : ℚ) (h : 0 ≤ x) : 0 ≤ rn64 x := by
  unfold rn64
  by_cases h0 : x = 0
  · simp [h0]
  · simp only [h0, if_false, not_lt.mpr h]
    split
    · exact Nat.cast_nonneg _
    · exact div_nonneg (Nat.cast_nonneg _) (Nat.cast_nonneg _)

/-! ## The size grid -/

/-- In exact arithmetic (no rounding) the edges of `gen_size_dist` are
`pw 10 (low + n * (high - low) / numBins)` and the sizes the means of neighbouring edges. -/
theorem gen_size_dist_general {K : Type} [LinearOrderedField K] (pw : K → K → K)
    (nu_config : Config K) (net : Network) (cell_inputs : CellStore K) (low high : K)
    (numBins : ℕ) (hlow : nu_config.low_sd_exp = some low)
    (hhigh : nu_config.high_sd_exp = some high) (hbins : nu_config.bin_number = some numBins)
    (_hpos : 1 ≤ numBins) :
    ∃ sd, gen_size_dist pw nu_config net cell_inputs = some sd ∧ sd.numBins = numBins ∧
      sd.init_bin_edges.length = numBins + 1 ∧ sd.init_size_bins.length = numBins ∧
      (∀ n : ℕ, n ≤ numBins →
        sd.init_bin_edges[n]? = some (pw 10 (low + (n : K) * (high - low) / (numBins : K)))) ∧
      (∀ n : ℕ, n < numBins → ∃ e0 e1, sd.init_bin_edges[n]? = some e0 ∧
        sd.init_bin_edges[n + 1]? = some e1 ∧ sd.init_size_bins[n]? = some ((e0 + e1) / 2)) := by
  have hedge : ∀ n, n ≤ numBins →
      ((List.range (numBins + 1)).map
        (fun n : ℕ => pw 10 (low + (n : K) * ((high - low) / (numBins : K)))))[n]?
        = some (pw 10 (low + (n : K) * (high - low) / (numBins : K))) := by
    intro n hn
    rw [List.getElem?_map, List.getElem?_range (by omega)]
    simp [mul_div_assoc]
  simp only [gen_size_dist, hlow, hhigh, hbins]
  refine ⟨_, rfl, rfl, by simp, by simp, ?_, ?_⟩
  · intro n hn
    exact hedge n hn
  · intro n hn
    refine ⟨_, _, hedge n (by omega), hedge (n + 1) (by omega), ?_⟩
    simp only [List.getD_eq_getElem?_getD]
    rw [List.getElem?_map, List.getElem?_range hn]
    simp only [Option.map_some', hedge n (by omega), hedge (n + 1) (by omega), Option.getD_some]

theorem decade_edges :
    (List.range (3 + 1)).map
        (fun (n : ℕ) => Real.rpow 10 (-7 + (n : ℝ) * ((-4 - -7) / ((3 : ℕ) : ℝ))))
      = [1e-7, 1e-6, 1e-5, 1e-4] := by
  have h0 : Real.rpow 10 (-7) = 1e-7 := by norm_num
  have h1 : Real.rpow 10 (-6) = 1e-6 := by norm_num
  have h2 : Real.rpow 10 (-5) = 1e-5 := by norm_num
  have h3 : Real.rpow 10 (-4) = 1e-4 := by norm_num
  have e0 : (-7 + ((0 : ℕ) : ℝ) * ((-4 - -7) / ((3 : ℕ) : ℝ)) : ℝ) = -7 := by norm_num
  have e1 : (-7 + ((1 : ℕ) : ℝ) * ((-4 - -7) / ((3 : ℕ) : ℝ)) : ℝ) = -6 := by norm_num
  have e2 : (-7 + ((2 : ℕ) : ℝ) * ((-4 - -7) / ((3 : ℕ) : ℝ)) : ℝ) = -5 := by norm_num
  have e3 : (-7 + ((3 : ℕ) : ℝ) * ((-4 - -7) / ((3 : ℕ) : ℝ)) : ℝ) = -4 := by norm_num
  simp only [List.range_succ, List.range_zero, List.nil_append, List.cons_append, List.map_cons,
    List.map_nil, e0, e1, e2, e3, h0, h1, h2, h3]

/-- Over the reals, with the real power and no rounding, `low = -7`, `high = -4` and three bins
give the edges `1e-7, 1e-6, 1e-5, 1e-4` and the sizes `5.5e-7, 5.5e-6, 5.5e-5`. -/
theorem gen_size_dist_decade (net : Network) (cell_inputs : CellStore ℝ) :
    ∃ sd, gen_size_dist Real.rpow
        { low_sd_exp := some (-7), high_sd_exp := some (-4), bin_number := some 3 }
        net cell_inputs = some sd ∧
      sd.init_bin_edges = [1e-7, 1e-6, 1e-5, 1e-4] ∧
      sd.init_size_bins = [5.5e-7, 5.5e-6, 5.5e-5] := by
  simp only [gen_size_dist]
  refine ⟨_, rfl, decade_edges, ?_⟩
  simp only [decade_edges]
  simp only [List.range_succ, List.range_zero, List.nil_append, List.cons_append, List.map_cons,
    List.map_nil, List.getD_cons_zero, List.getD_cons_succ]
  norm_num

/-- Without rounding, `gen_size_dist_rnd` is `gen_size_dist`. -/
theorem gen_size_dist_rnd_id {K : Type} [LinearOrderedField K] (pw : K → K → K)
    (nu_config : Config K) (net : Network) (cell_inputs : CellStore K) :
    gen_size_dist_rnd id pw nu_config net cell_inputs
      = gen_size_dist pw nu_config net cell_inputs := by
  unfold gen_size_dist_rnd gen_size_dist
  simp only [id]

theorem gen_size_dist_rnd_general {K : Type} [LinearOrderedField K] (rnd : K → K)
    (pw : K → K → K) (nu_config : Config K) (net : Network) (cell_inputs : CellStore K)
    (low high : K) (numBins : ℕ) (hlow : nu_config.low_sd_exp = some low)
    (hhigh : nu_config.high_sd_exp = some high) (hbins : nu_config.bin_number = some numBins)
    (_hpos : 1 ≤ numBins) :
    ∃ sd, gen_size_dist_rnd rnd pw nu_config net cell_inputs = some sd ∧ sd.numBins = numBins ∧
      sd.init_bin_edges.length = numBins + 1 ∧ sd.init_size_bins.length = numBins ∧
      (∀ n : ℕ, n ≤ numBins →
        sd.init_bin_edges[n]?
          = some (pw 10 (rnd (low + rnd (rnd (n : K)
              * rnd (rnd (high - low) / rnd (numBins : K))))))) ∧
      (∀ n : ℕ, n < numBins → ∃ e0 e1, sd.init_bin_edges[n]? = some e0 ∧
        sd.init_bin_edges[n + 1]? = some e1 ∧
        sd.init_size_bins[n]? = some (rnd (rnd (e0 + e1) / 2))) := by
  have hedge : ∀ n, n ≤ numBins →
      ((List.range (numBins + 1)).map
        (fun n : ℕ => pw 10 (rnd (low + rnd (rnd (n : K)
          * rnd (rnd (high - low) / rnd (numBins : K)))))))[n]?
        = some (pw 10 (rnd (low + rnd (rnd (n : K)
            * rnd (rnd (high - low) / rnd (numBins : K)))))) := by
    intro n hn
    rw [List.getElem?_map, List.getElem?_range (by omega)]
    rfl
  simp only [gen_size_dist_rnd, hlow, hhigh, hbins]
  refine ⟨_, rfl, rfl, by simp, by simp, ?_, ?_⟩
  · intro n hn
    exact hedge n hn
  · intro n hn
    refine ⟨_, _, hedge n (by omega), hedge (n + 1) (by omega), ?_⟩
    simp only [List.getD_eq_getElem?_getD]
    rw [List.getElem?_map, List.getElem?_range hn]
    simp only [Option.map_some', hedge n (by omega), hedge (n + 1) (by omega), Option.getD_some]

/-- C9 (amended): with both exponents and a bin count `numBins ≥ 1` configured,
`gen_size_dist` in the arithmetic of type `double` (every operation rounded by `rnd`) returns
`numBins + 1` edges `pw 10 (low + n * expDel)` with the step `expDel = (high - low) / numBins`
computed and rounded once, and `numBins` sizes `(edges[n] + edges[n + 1]) / 2`, each operation
rounded; in binary64, with `std::pow` returning the nearest double, `low = -7`, `high = -4` and
three bins give the edges that are the doubles `1e-7, 1e-6, 1e-5, 1e-4` and the sizes that are
the doubles `5.5e-7, 5.500000000000001e-6, 5.5e-5`. -/
theorem gen_size_dist_rnd_edges_sizes :
    (∀ (K : Type) [LinearOrderedField K] (rnd : K → K) (pw : K → K → K) (nu_config : Config K)
        (net : Network) (cell_inputs : CellStore K) (low high : K) (numBins : ℕ),
      nu_config.low_sd_exp = some low → nu_config.high_sd_exp = some high →
      nu_config.bin_number = some numBins → 1 ≤ numBins →
      ∃ sd, gen_size_dist_rnd rnd pw nu_config net cell_inputs = some sd ∧
        sd.numBins = numBins ∧
        sd.init_bin_edges.length = numBins + 1 ∧ sd.init_size_bins.length = numBins ∧
        (∀ n : ℕ, n ≤ numBins →
          sd.init_bin_edges[n]?
            = some (pw 10 (rnd (low + rnd (rnd (n : K)
                * rnd (rnd (high - low) / rnd (numBins : K))))))) ∧
        (∀ n : ℕ, n < numBins → ∃ e0 e1, sd.init_bin_edges[n]? = some e0 ∧
          sd.init_bin_edges[n + 1]? = some e1 ∧
          sd.init_size_bins[n]? = some (rnd (rnd (e0 + e1) / 2)))) ∧
    (gen_size_dist_rnd rn64 pow_floor64 decade_config demo_net []).map
        (fun sd => (sd.init_bin_edges, sd.init_size_bins))
      = some ([rn64 (1 / 10 ^ 7), rn64 (1 / 10 ^ 6), rn64 (1 / 10 ^ 5), rn64 (1 / 10 ^ 4)],
          [rn64 (55 / 10 ^ 8), rn64 (5500000000000001 / 10 ^ 21), rn64 (55 / 10 ^ 6)]) :=
  ⟨fun _ _ rnd pw nu_config net cell_inputs low high numBins h1 h2 h3 h4 =>
      gen_size_dist_rnd_general rnd pw nu_config net cell_inputs low high numBins h1 h2 h3 h4,
    by decide!⟩

/-- Witness of C9 (amended): three bins between the exponents `-7` and `-4` in binary64. -/
theorem gen_size_dist_rnd_edges_sizes_witness :
    ∃ sd, gen_size_dist_rnd rn64 pow_floor64 decade_config demo_net [(0, demo_cell)] = some sd ∧
      sd.numBins = 3 ∧
      sd.init_bin_edges.length = 3 + 1 ∧ sd.init_size_bins.length = 3 ∧
      (∀ n : ℕ, n ≤ 3 →
        sd.init_bin_edges[n]?
          = some (pow_floor64 10 (rn64 (-7 + rn64 (rn64 (n : ℚ)
              * rn64 (rn64 (-4 - -7) / rn64 ((3 : ℕ) : ℚ))))))) ∧
      (∀ n : ℕ, n < 3 → ∃ e0 e1, sd.init_bin_edges[n]? = some e0 ∧
        sd.init_bin_edges[n + 1]? = some e1 ∧
        sd.init_size_bins[n]? = some (rn64 (rn64 (e0 + e1) / 2))) :=
  gen_size_dist_rnd_edges_sizes.1 ℚ rn64 pow_floor64 decade_config demo_net [(0, demo_cell)]
    (-7) (-4) 3 rfl rfl rfl (by decide)

/-- Counterexample to C9 as stated: in binary64, for `low = -7`, `high = -4` and three bins, the
second size that `gen_size_dist` produces is `6493253913945763 / 2 ^ 70`, the double
`5.500000000000001e-06`, whereas the double `5.5e-6` is `6493253913945762 / 2 ^ 70`, one unit in
the last place below. -/
theorem gen_size_dist_sizes_counterexample :
    (gen_size_dist_rnd rn64 pow_floor64 decade_config demo_net []).map
        (fun sd => sd.init_size_bins[1]?)
      = some (some (6493253913945763 / 2 ^ 70)) ∧
    rn64 (55 / 10 ^ 7) = 6493253913945762 / 2 ^ 70 ∧
    (gen_size_dist_rnd rn64 pow_floor64 decade_config demo_net []).map
        (fun sd => sd.init_size_bins[1]?)
      ≠ some (some (rn64 (55 / 10 ^ 7))) := by
  decide!

/-- The exponent of an edge is `low + n * expDel` with the rounded step `expDel`, not
`low + n * (high - low) / numBins`: in binary64, for `low = 0`, `high = 1`, ten bins and `n = 3`
the first is the double `0.30000000000000004` and the second the double `0.3`. -/
theorem edge_exponent_rounds :
    rn64 (0 + rn64 (rn64 3 * rn64 (rn64 (1 - 0) / rn64 10))) = 5404319552844596 / 2 ^ 54 ∧
    rn64 (0 + rn64 (rn64 (rn64 3 * rn64 (1 - 0)) / rn64 10)) = 5404319552844595 / 2 ^ 54 := by
  decide!

/-! ## The bound of ten cells per rank -/

theorem create_simulation_cells_step_cells_length {K : Type} [Zero K]
    (output_exists : Int → Bool) (restart_file : Int → Option (TokenFile K)) (i : ℕ) (cid : Int)
    (st : SimCells K) :
    (create_simulation_cells_step output_exists restart_file i cid st).cells.length
      ≤ st.cells.length + 1 := by
  unfold create_simulation_cells_step
  by_cases ho : output_exists cid = true
  · simp [ho]
  · have ho' : output_exists cid = false := by simpa using ho
    by_cases hrs : (restart_file cid).isSome = true
    · cases hcr : create_restart_cells restart_file cid st.cell_inputs <;> simp [ho', hrs, hcr]
    · have hrs' : (restart_file cid).isSome = false := by simpa using hrs
      simp [ho', hrs']

theorem create_simulation_cells_loop_bounds {K : Type} [Zero K] (output_exists : Int → Bool)
    (restart_file : Int → Option (TokenFile K)) (cell_end : ℕ) (it : List (Int × CellInput K)) :
    ∀ (i : ℕ) (st : SimCells K),
      (create_simulation_cells_loop output_exists restart_file cell_end i it st).visited.length
        ≤ st.visited.length + (cell_end - i) ∧
      (create_simulation_cells_loop output_exists restart_file cell_end i it st).cells.length
          + st.visited.length
        ≤ st.cells.length
          + (create_simulation_cells_loop output_exists restart_file cell_end i it
              st).visited.length := by
  induction it with
  | nil => intro i st; simp [create_simulation_cells_loop]
  | cons ic it ih =>
    intro i st
    unfold create_simulation_cells_loop
    by_cases hc : i < cell_end ∧ st.ended = false
    · rw [if_pos hc]
      have h := ih (i + 1) (create_simulation_cells_step output_exists restart_file i ic.1 st)
      have hv := create_simulation_cells_step_visited output_exists restart_file i ic.1 st
      have hl := create_simulation_cells_step_cells_length output_exists restart_file i ic.1 st
      rw [hv] at h
      simp only [List.length_append, List.length_singleton] at h
      have hi := hc.1
      constructor
      · omega
      · omega
    · rw [if_neg hc]
      constructor <;> omega

/-- C11: on every rank `par_rank < par_size` the loop body of `create_simulation_cells` runs for
at most 10 positions of the cell-input map, and the list of cells of the rank holds at most 10
cells. -/
theorem create_simulation_cells_at_most_ten {K : Type} [Zero K] (par_size par_rank : ℕ)
    (output_exists : Int → Bool) (restart_file : Int → Option (TokenFile K))
    (cell_inputs : CellStore K) (_hR : 1 ≤ par_size) (_hr : par_rank < par_size) :
    (create_simulation_cells par_size par_rank output_exists restart_file
      cell_inputs).visited.length ≤ 10 ∧
    (create_simulation_cells par_size par_rank output_exists restart_file
      cell_inputs).cells.length ≤ 10 := by
  unfold create_simulation_cells
  simp only []
  have h := create_simulation_cells_loop_bounds output_exists restart_file
    (min (par_rank * (cell_inputs.length / par_size) + 10) cell_inputs.length)
    (List.drop (par_rank * (cell_inputs.length / par_size)) cell_inputs)
    (par_rank * (cell_inputs.length / par_size))
    { cells := [], cell_inputs := cell_inputs, ended := false, visited := [],
      restart_reads := [] }
  simp only [List.length_nil, Nat.zero_add, Nat.add_zero] at h
  constructor <;> omega

/-- Witness of C11: twenty-five cells on two ranks (twelve per rank); rank 1 visits ten positions
and makes ten cells. -/
theorem create_simulation_cells_at_most_ten_witness :
    (create_simulation_cells 2 1 no_output no_restart
      ((List.range 25).map (fun i => ((i : Int), demo_cell)))).visited.length ≤ 10 ∧
    (create_simulation_cells 2 1 no_output no_restart
      ((List.range 25).map (fun i => ((i : Int), demo_cell)))).cells.length ≤ 10 :=
  create_simulation_cells_at_most_ten 2 1 no_output no_restart
    ((List.range 25).map (fun i => ((i : Int), demo_cell))) (by decide) (by decide)
/-! ## Abundance loading -/

theorem cast_all_map_some {K : Type} (vals : List K) :
    cast_all (vals.map some) = some vals := by
  induction vals with
  | nil => rfl
  | cons x xs ih => simp [cast_all, ih]

theorem get_element_index_getElem? (elem : String) (l : List String) (i : ℕ)
    (h : get_element_index elem l = some i) : l[i]? = some elem := by
  induction l generalizing i with
  | nil => simp [get_element_index] at h
  | cons x rest ih =>
    unfold get_element_index at h
    by_cases hx : x = elem
    · simp only [hx, if_true, Option.some.injEq] at h
      subst h; simp [hx]
    · simp only [hx, if_false, Option.map_eq_some'] at h
      obtain ⟨j, hj, rfl⟩ := h
      simpa using ih j hj

theorem get_element_index_of_mem (elem : String) (l : List String) (h : elem ∈ l) :
    ∃ i, get_element_index elem l = some i := by
  induction l with
  | nil => simp at h
  | cons x rest ih =>
    unfold get_element_index
    by_cases hx : x = elem
    · exact ⟨0, by simp [hx]⟩
    · have hm : elem ∈ rest := by
        rcases List.mem_cons.mp h with h | h
        · exact absurd h.symm hx
        · exact h
      obtain ⟨i, hi⟩ := ih hm
      exact ⟨i + 1, by simp [hx, hi]⟩

theorem get_element_index_isNone (elem : String) (l : List String) :
    (get_element_index elem l).isNone = true ↔ elem ∉ l := by
  constructor
  · intro h hm
    obtain ⟨i, hi⟩ := get_element_index_of_mem elem l hm
    simp [hi] at h
  · intro h
    cases hg : get_element_index elem l with
    | none => rfl
    | some i =>
      have := get_element_index_getElem? elem l i hg
      exact absurd (List.getElem?_mem this) h

theorem header_elements_eq (header : List String) :
    (header_elements header).1
      = header.drop 1 ++ (if "CO" ∈ header.drop 1 then [] else ["CO"])
          ++ (if "SiO" ∈ header.drop 1 then [] else ["SiO"]) ∧
    (header_elements header).2.1 = decide ("CO" ∉ header.drop 1) ∧
    (header_elements header).2.2 = decide ("SiO" ∉ header.drop 1) := by
  have hne : ("SiO" : String) ≠ "CO" := by decide
  have key : ∀ (e : String) (l : List String),
      (get_element_index e l).isNone = decide (e ∉ l) := by
    intro e l
    by_cases h : e ∈ l
    · have : (get_element_index e l).isNone = false := by
        rw [Bool.eq_false_iff]; intro h'
        exact (get_element_index_isNone _ _).mp h' h
      rw [this]; simp [h]
    · rw [(get_element_index_isNone _ _).mpr h]; simp [h]
  unfold header_elements
  simp only [key]
  generalize header.drop 1 = l
  by_cases hco : "CO" ∈ l <;> by_cases hsio : "SiO" ∈ l <;> simp [hco, hsio, hne]

theorem premake_abund_length {K : Type} [LinearOrderedField K] (s1 s2 sp : ℕ) (a : List K) :
    (premake_abund s1 s2 sp a).length = a.length := by
  unfold premake_abund
  simp only []
  split <;> simp

theorem premake_abund_getElem?_of_ne {K : Type} [LinearOrderedField K] (s1 s2 sp i : ℕ)
    (a : List K) (h1 : s1 ≠ i) (h2 : s2 ≠ i) (hp : sp ≠ i) :
    (premake_abund s1 s2 sp a)[i]? = a[i]? := by
  unfold premake_abund
  simp only []
  split <;> simp [List.getElem?_set, h1, h2, hp]
theorem load_initial_abundances_row_spec {K : Type} [LinearOrderedField K]
    (elems : List String) (mCO mSiO : Bool) (id : Int) (vals : List K) (m : CellStore K)
    (iCO iC iO iSiO iSi : ℕ)
    (hCO : get_element_index "CO" elems = some iCO) (hC : get_element_index "C" elems = some iC)
    (hO : get_element_index "O" elems = some iO)
    (hSiO : get_element_index "SiO" elems = some iSiO)
    (hSi : get_element_index "Si" elems = some iSi)
    (hfresh : (m.at id).inp_init_abund = []) :
    ∃ m', load_initial_abundances_row elems mCO mSiO
        { cell_id := some id, values := vals.map some } m = some m' ∧
      (m'.at id).inp_init_abund
        = premake_abund iSi iO iSiO (premake_abund iC iO iCO
            (vals ++ (if mCO = true then [0] else []) ++ (if mSiO = true then [0] else []))) ∧
      ∀ k, k ≠ id → m'.at k = m.at k := by
  simp only [load_initial_abundances_row, hCO, hC, hO, hSiO, hSi, cast_all_map_some,
    Option.bind_eq_bind, Option.some_bind, Option.pure_def]
  refine ⟨_, rfl, ?_, ?_⟩
  · rw [premake_at, premake_at]
    cases mCO <;> cases mSiO <;>
      simp [CellStore.at_modify_self, hfresh]
  · intro k hk
    unfold premake
    rw [CellStore.at_modify_of_ne _ _ _ _ hk, CellStore.at_modify_of_ne _ _ _ _ hk]
    cases mCO <;> cases mSiO <;>
      simp [CellStore.at_modify_of_ne _ _ _ _ hk]
theorem load_initial_abundances_rows_spec {K : Type} [LinearOrderedField K]
    (elems : List String) (mCO mSiO : Bool) (iCO iC iO iSiO iSi : ℕ)
    (hCO : get_element_index "CO" elems = some iCO) (hC : get_element_index "C" elems = some iC)
    (hO : get_element_index "O" elems = some iO)
    (hSiO : get_element_index "SiO" elems = some iSiO)
    (hSi : get_element_index "Si" elems = some iSi) :
    ∀ (parsed : List (Int × List K)) (m : CellStore K),
      (parsed.map Prod.fst).Nodup →
      (∀ p ∈ parsed, (m.at p.1).inp_init_abund = []) →
      ∃ m', (parsed.map (fun p => ({ cell_id := some p.1, values := p.2.map some } :
            AbundRow K))).foldlM
          (fun m row => load_initial_abundances_row elems mCO mSiO row m) m = some m' ∧
        (∀ p ∈ parsed, (m'.at p.1).inp_init_abund
          = premake_abund iSi iO iSiO (premake_abund iC iO iCO
              (p.2 ++ (if mCO = true then [0] else []) ++ (if mSiO = true then [0] else [])))) ∧
        (∀ k, k ∉ parsed.map Prod.fst → m'.at k = m.at k) := by
  intro parsed
  induction parsed with
  | nil => intro m _ _; exact ⟨m, rfl, by simp, by simp⟩
  | cons p rest ih =>
    intro m hnd hfresh
    obtain ⟨m1, hm1, hat, hother⟩ := load_initial_abundances_row_spec elems mCO mSiO p.1 p.2 m
      iCO iC iO iSiO iSi hCO hC hO hSiO hSi (hfresh p (List.mem_cons_self _ _))
    have hnd' : (rest.map Prod.fst).Nodup := by
      simp only [List.map_cons, List.nodup_cons] at hnd; exact hnd.2
    have hp : p.1 ∉ rest.map Prod.fst := by
      simp only [List.map_cons, List.nodup_cons] at hnd; exact hnd.1
    have hfresh' : ∀ q ∈ rest, (m1.at q.1).inp_init_abund = [] := by
      intro q hq
      have hne : q.1 ≠ p.1 := by
        intro e; exact hp (e ▸ List.mem_map_of_mem Prod.fst hq)
      rw [hother q.1 hne]
      exact hfresh q (List.mem_cons_of_mem _ hq)
    obtain ⟨m', hm', hrest, hk⟩ := ih m1 hnd' hfresh'
    refine ⟨m', ?_, ?_, ?_⟩
    · simp only [List.map_cons, List.foldlM_cons, hm1, Option.bind_eq_bind, Option.some_bind]
      exact hm'
    · intro q hq
      rcases List.mem_cons.mp hq with rfl | hq
      · rw [hk q.1 hp]; exact hat
      · exact hrest q hq
    · intro k hkn
      simp only [List.map_cons, List.mem_cons, not_or] at hkn
      rw [hk k hkn.2]
      exact hother k hkn.1

theorem get_element_index_append_left (elem : String) (l r : List String) (i : ℕ)
    (h : get_element_index elem l = some i) : get_element_index elem (l ++ r) = some i := by
  induction l generalizing i with
  | nil => simp [get_element_index] at h
  | cons x rest ih =>
    unfold get_element_index at h
    rw [List.cons_append]
    unfold get_element_index
    by_cases hx : x = elem
    · simp only [hx, if_true] at h ⊢
      exact h
    · simp only [hx, if_false, Option.map_eq_some'] at h ⊢
      obtain ⟨j, hj, rfl⟩ := h
      exact ⟨j, ih j hj, rfl⟩

theorem get_element_index_append_right (elem : String) (l r : List String) (h : elem ∉ l) :
    get_element_index elem (l ++ r) = (get_element_index elem r).map (fun i => i + l.length) := by
  induction l with
  | nil => simp
  | cons x rest ih =>
    have hx : x ≠ elem := fun e => h (e ▸ List.mem_cons_self _ _)
    have hr : elem ∉ rest := fun e => h (List.mem_cons_of_mem _ e)
    have e : get_element_index elem (x :: (rest ++ r))
        = (get_element_index elem (rest ++ r)).map (fun i => i + 1) := by
      simp [get_element_index, hx]
    rw [List.cons_append, e, ih hr, Option.map_map]
    cases get_element_index elem r <;> simp [Nat.add_assoc]

theorem get_element_index_lt (elem : String) (l : List String) (i : ℕ)
    (h : get_element_index elem l = some i) : i < l.length := by
  have := get_element_index_getElem? elem l i h
  by_contra hc
  rw [List.getElem?_eq_none (by omega)] at this
  exact Option.noConfusion this

/-- The three entries that `premake` writes, in the expressions of the source: the product is
the smaller of the two reactants, the reactants lose it. -/
theorem premake_abund_entries {K : Type} [LinearOrderedField K] (s1 s2 sp : ℕ) (a : List K)
    (x1 x2 : K) (h12 : s1 ≠ s2) (h1p : s1 ≠ sp) (h2p : s2 ≠ sp)
    (hx1 : a[s1]? = some x1) (hx2 : a[s2]? = some x2) (hsp : sp < a.length) :
    (premake_abund s1 s2 sp a)[sp]? = some (if x2 > x1 then x1 else x2) ∧
    (premake_abund s1 s2 sp a)[s1]? = some (if x2 > x1 then 0 else x1 - x2) ∧
    (premake_abund s1 s2 sp a)[s2]? = some (if x2 > x1 then x2 - x1 else 0) := by
  have hl1 : s1 < a.length := by
    by_contra h
    rw [List.getElem?_eq_none (by omega)] at hx1
    exact Option.noConfusion hx1
  have hl2 : s2 < a.length := by
    by_contra h
    rw [List.getElem?_eq_none (by omega)] at hx2
    exact Option.noConfusion hx2
  have e1 : a.getD s1 0 = x1 := by simp [hx1]
  have e2 : a.getD s2 0 = x2 := by simp [hx2]
  unfold premake_abund
  simp only [e1, e2]
  by_cases hlt : x2 > x1
  · simp only [hlt, if_true]
    refine ⟨?_, ?_, ?_⟩ <;>
      simp [List.getElem?_set, h12, h1p, h2p, hl1, hl2, hsp, Ne.symm h12]
  · simp only [hlt, if_false]
    refine ⟨?_, ?_, ?_⟩ <;>
      simp [List.getElem?_set, h12, h1p, h2p, hl1, hl2, hsp, Ne.symm h12]

/-- The abundance array of one row after the two calls of `premake`, entry by entry: `l` is the
list of header species, `vals` the values of the row, and the five indices are those that
`get_element_index` finds in the species list. -/
theorem load_initial_abundances_array_spec {K : Type} [LinearOrderedField K]
    (l : List String) (vals : List K) (iC iO iSi iCO iSiO : ℕ)
    (hC : "C" ∈ l) (hO : "O" ∈ l) (hSi : "Si" ∈ l) (hlen : vals.length = l.length)
    (hiC : get_element_index "C"
      (l ++ (if "CO" ∈ l then [] else ["CO"]) ++ (if "SiO" ∈ l then [] else ["SiO"])) = some iC)
    (hiO : get_element_index "O"
      (l ++ (if "CO" ∈ l then [] else ["CO"]) ++ (if "SiO" ∈ l then [] else ["SiO"])) = some iO)
    (hiSi : get_element_index "Si"
      (l ++ (if "CO" ∈ l then [] else ["CO"]) ++ (if "SiO" ∈ l then [] else ["SiO"])) = some iSi)
    (hiCO : get_element_index "CO"
      (l ++ (if "CO" ∈ l then [] else ["CO"]) ++ (if "SiO" ∈ l then [] else ["SiO"])) = some iCO)
    (hiSiO : get_element_index "SiO"
      (l ++ (if "CO" ∈ l then [] else ["CO"]) ++ (if "SiO" ∈ l then [] else ["SiO"]))
        = some iSiO) :
    (∀ i : ℕ, i ∉ [iC, iO, iSi, iCO, iSiO] →
      (premake_abund iSi iO iSiO (premake_abund iC iO iCO
        (vals ++ (if "CO" ∈ l then [] else [0]) ++ (if "SiO" ∈ l then [] else [0]))))[i]?
        = vals[i]?) ∧
    ∃ c o si, vals[iC]? = some c ∧ vals[iO]? = some o ∧ vals[iSi]? = some si ∧
      (premake_abund iSi iO iSiO (premake_abund iC iO iCO
        (vals ++ (if "CO" ∈ l then [] else [0]) ++ (if "SiO" ∈ l then [] else [0]))))[iCO]?
        = some (if o > c then c else o) ∧
      (premake_abund iSi iO iSiO (premake_abund iC iO iCO
        (vals ++ (if "CO" ∈ l then [] else [0]) ++ (if "SiO" ∈ l then [] else [0]))))[iC]?
        = some (if o > c then 0 else c - o) ∧
      (premake_abund iSi iO iSiO (premake_abund iC iO iCO
        (vals ++ (if "CO" ∈ l then [] else [0]) ++ (if "SiO" ∈ l then [] else [0]))))[iSiO]?
        = some (if (if o > c then o - c else 0) > si then si
            else (if o > c then o - c else 0)) ∧
      (premake_abund iSi iO iSiO (premake_abund iC iO iCO
        (vals ++ (if "CO" ∈ l then [] else [0]) ++ (if "SiO" ∈ l then [] else [0]))))[iSi]?
        = some (if (if o > c then o - c else 0) > si then 0
            else si - (if o > c then o - c else 0)) ∧
      (premake_abund iSi iO iSiO (premake_abund iC iO iCO
        (vals ++ (if "CO" ∈ l then [] else [0]) ++ (if "SiO" ∈ l then [] else [0]))))[iO]?
        = some (if (if o > c then o - c else 0) > si then (if o > c then o - c else 0) - si
            else 0) := by
  generalize hE : l ++ (if "CO" ∈ l then [] else ["CO"]) ++ (if "SiO" ∈ l then [] else ["SiO"])
    = elems at *
  generalize hA : vals ++ (if "CO" ∈ l then [] else [0]) ++ (if "SiO" ∈ l then [] else [0])
    = a at *
  -- lengths
  have hAE : a.length = elems.length := by
    rw [← hA, ← hE]
    by_cases h1 : "CO" ∈ l <;> by_cases h2 : "SiO" ∈ l <;> simp [h1, h2, hlen]
  have hEl : elems.length = l.length + (if "CO" ∈ l then 0 else 1)
      + (if "SiO" ∈ l then 0 else 1) := by
    rw [← hE]
    by_cases h1 : "CO" ∈ l <;> by_cases h2 : "SiO" ∈ l <;> simp [h1, h2]
  -- the names at the five indices
  have nC := get_element_index_getElem? _ _ _ hiC
  have nO := get_element_index_getElem? _ _ _ hiO
  have nSi := get_element_index_getElem? _ _ _ hiSi
  have nCO := get_element_index_getElem? _ _ _ hiCO
  have nSiO := get_element_index_getElem? _ _ _ hiSiO
  have dne : ∀ (x y : String) (i j : ℕ), elems[i]? = some x → elems[j]? = some y → x ≠ y →
      i ≠ j := by
    intro x y i j hi hj hxy hij
    rw [hij, hj] at hi
    exact hxy (Option.some.inj hi).symm
  have hC_O := dne _ _ _ _ nC nO (by decide)
  have hC_Si := dne _ _ _ _ nC nSi (by decide)
  have hC_CO := dne _ _ _ _ nC nCO (by decide)
  have hC_SiO := dne _ _ _ _ nC nSiO (by decide)
  have hO_Si := dne _ _ _ _ nO nSi (by decide)
  have hO_CO := dne _ _ _ _ nO nCO (by decide)
  have hO_SiO := dne _ _ _ _ nO nSiO (by decide)
  have hSi_CO := dne _ _ _ _ nSi nCO (by decide)
  have hSi_SiO := dne _ _ _ _ nSi nSiO (by decide)
  have hCO_SiO := dne _ _ _ _ nCO nSiO (by decide)
  -- the reactants are header species
  have inl : ∀ (x : String) (i : ℕ), x ∈ l → get_element_index x elems = some i →
      i < l.length := by
    intro x i hx hi
    obtain ⟨j, hj⟩ := get_element_index_of_mem x l hx
    have := get_element_index_append_left x l
      ((if "CO" ∈ l then [] else ["CO"]) ++ (if "SiO" ∈ l then [] else ["SiO"])) j hj
    rw [← List.append_assoc, hE, hi] at this
    rw [Option.some.inj this]
    exact get_element_index_lt x l j hj
  have lC := inl _ _ hC hiC
  have lO := inl _ _ hO hiO
  have lSi := inl _ _ hSi hiSi
  have lCO := get_element_index_lt _ _ _ hiCO
  have lSiO := get_element_index_lt _ _ _ hiSiO
  -- the appended slots are those of CO and SiO
  have hpad : ∀ i : ℕ, l.length ≤ i → i < elems.length → i = iCO ∨ i = iSiO := by
    intro i h1 h2
    by_cases hco : "CO" ∈ l <;> by_cases hsio : "SiO" ∈ l
    · simp only [hco, hsio, if_true] at hEl; omega
    · have hs : "SiO" ∉ l ++ (if "CO" ∈ l then [] else ["CO"]) := by simp [hco, hsio]
      have := get_element_index_append_right "SiO" _ ["SiO"] hs
      simp only [hco, hsio, if_true, if_false, List.append_nil] at this hE hEl
      rw [hE, hiSiO] at this
      simp [get_element_index] at this
      omega
    · have := get_element_index_append_right "CO" l
        (["CO"] ++ (if "SiO" ∈ l then [] else ["SiO"])) hco
      simp only [hco, hsio, if_true, if_false, List.append_nil] at this hE hEl
      rw [hE, hiCO] at this
      simp [get_element_index] at this
      omega
    · have hs : "SiO" ∉ l ++ (if "CO" ∈ l then [] else ["CO"]) := by simp [hco, hsio]
      have h3 := get_element_index_append_right "SiO" _ ["SiO"] hs
      have h4 := get_element_index_append_right "CO" l
        (["CO"] ++ (if "SiO" ∈ l then [] else ["SiO"])) hco
      simp only [hco, hsio, if_false] at h3 h4 hE hEl
      rw [hE, hiSiO] at h3
      rw [← List.append_assoc, hE, hiCO] at h4
      simp [get_element_index] at h3 h4
      omega
  -- the values of the row at the reactants
  have hval : ∀ i : ℕ, i < l.length → a[i]? = vals[i]? := by
    intro i hi
    rw [← hA, List.append_assoc, List.getElem?_append_left (by omega)]
  obtain ⟨c, hc⟩ : ∃ c, vals[iC]? = some c :=
    ⟨vals[iC], List.getElem?_eq_getElem (by omega)⟩
  obtain ⟨o, ho⟩ : ∃ o, vals[iO]? = some o :=
    ⟨vals[iO], List.getElem?_eq_getElem (by omega)⟩
  obtain ⟨si, hsi⟩ : ∃ si, vals[iSi]? = some si :=
    ⟨vals[iSi], List.getElem?_eq_getElem (by omega)⟩
  -- first call: C + O -> CO
  obtain ⟨b_CO, b_C, b_O⟩ := premake_abund_entries iC iO iCO a c o hC_O hC_CO hO_CO
    (by rw [hval iC lC]; exact hc) (by rw [hval iO lO]; exact ho) (by omega)
  have b_Si : (premake_abund iC iO iCO a)[iSi]? = some si := by
    rw [premake_abund_getElem?_of_ne _ _ _ _ _ hC_Si hO_Si (Ne.symm hSi_CO), hval iSi lSi]
    exact hsi
  have b_len : (premake_abund iC iO iCO a).length = a.length := premake_abund_length _ _ _ _
  -- second call: Si + O -> SiO
  obtain ⟨d_SiO, d_Si, d_O⟩ := premake_abund_entries iSi iO iSiO (premake_abund iC iO iCO a)
    si (if o > c then o - c else 0) (Ne.symm hO_Si) hSi_SiO hO_SiO b_Si b_O (by omega)
  refine ⟨?_, c, o, si, hc, ho, hsi, ?_, ?_, d_SiO, d_Si, d_O⟩
  · intro i hi
    simp only [List.mem_cons, List.mem_singleton, List.not_mem_nil, or_false, not_or] at hi
    obtain ⟨h1, h2, h3, h4, h5⟩ := hi
    rw [premake_abund_getElem?_of_ne _ _ _ _ _ (Ne.symm h3) (Ne.symm h2) (Ne.symm h5),
      premake_abund_getElem?_of_ne _ _ _ _ _ (Ne.symm h1) (Ne.symm h2) (Ne.symm h4)]
    by_cases hil : i < l.length
    · exact hval i hil
    · have hge : elems.length ≤ i := by
        by_contra hc'
        rcases hpad i (by omega) (by omega) with e | e
        · exact h4 e
        · exact h5 e
      rw [List.getElem?_eq_none (by omega), List.getElem?_eq_none (by omega)]
  · rw [premake_abund_getElem?_of_ne _ _ _ _ _ hSi_CO hO_CO (Ne.symm hCO_SiO)]
    exact b_CO
  · rw [premake_abund_getElem?_of_ne _ _ _ _ _ (Ne.symm hC_Si) (Ne.symm hC_O) (Ne.symm hC_SiO)]
    exact b_C

/-- C14: for an abundance file whose header names C, O and Si and whose data rows carry distinct
cell ids and one value per header species, `load_initial_abundances` returns; the species list is
the header list followed by CO and SiO where the header lacks them; both are in the list; the
abundance array of every cell has the length of the species list.  Abundance `i` belongs to
species `i`: with the indices that `get_element_index` finds for C, O, Si, CO and SiO, the entry
at every other index is the value of the data row at that index, and with the row values `c`,
`o`, `si` of C, O and Si the entries of the five species are those of the two syntheses,
`CO = (o > c ? c : o)`, `C = (o > c ? 0 : c - o)`, and with `o1 = (o > c ? o - c : 0)`,
`SiO = (o1 > si ? si : o1)`, `Si = (o1 > si ? 0 : si - o1)`, `O = (o1 > si ? o1 - si : 0)`.
Ids that no row carries have no abundances. -/
theorem load_initial_abundances_aligned {K : Type} [LinearOrderedField K]
    (header : List String) (parsed : List (Int × List K))
    (hC : "C" ∈ header.drop 1) (hO : "O" ∈ header.drop 1) (hSi : "Si" ∈ header.drop 1)
    (hids : (parsed.map Prod.fst).Nodup)
    (hlen : ∀ p ∈ parsed, p.2.length = (header.drop 1).length) :
    ∃ (elems : List String) (m : CellStore K) (iC iO iSi iCO iSiO : ℕ),
      load_initial_abundances
        (some { header := header,
                rows := parsed.map (fun p => { cell_id := some p.1, values := p.2.map some }) })
        [] = some (elems, m) ∧
      elems = header.drop 1 ++ (if "CO" ∈ header.drop 1 then [] else ["CO"])
          ++ (if "SiO" ∈ header.drop 1 then [] else ["SiO"]) ∧
      "CO" ∈ elems ∧ "SiO" ∈ elems ∧
      (get_element_index "C" elems = some iC ∧ get_element_index "O" elems = some iO ∧
        get_element_index "Si" elems = some iSi ∧ get_element_index "CO" elems = some iCO ∧
        get_element_index "SiO" elems = some iSiO) ∧
      (elems[iC]? = some "C" ∧ elems[iO]? = some "O" ∧ elems[iSi]? = some "Si" ∧
        elems[iCO]? = some "CO" ∧ elems[iSiO]? = some "SiO") ∧
      (∀ (i : ℕ) (name : String), (header.drop 1)[i]? = some name → elems[i]? = some name) ∧
      (∀ p ∈ parsed, (m.at p.1).inp_init_abund.length = elems.length ∧
        (∀ i : ℕ, i ∉ [iC, iO, iSi, iCO, iSiO] →
          (m.at p.1).inp_init_abund[i]? = p.2[i]?) ∧
        (∀ (i : ℕ) (name : String), (header.drop 1)[i]? = some name →
          name ∉ ["C", "O", "Si", "CO", "SiO"] →
          (m.at p.1).inp_init_abund[i]? = p.2[i]?) ∧
        ∃ c o si, p.2[iC]? = some c ∧ p.2[iO]? = some o ∧ p.2[iSi]? = some si ∧
          (m.at p.1).inp_init_abund[iCO]? = some (if o > c then c else o) ∧
          (m.at p.1).inp_init_abund[iC]? = some (if o > c then 0 else c - o) ∧
          (m.at p.1).inp_init_abund[iSiO]?
            = some (if (if o > c then o - c else 0) > si then si
                else (if o > c then o - c else 0)) ∧
          (m.at p.1).inp_init_abund[iSi]?
            = some (if (if o > c then o - c else 0) > si then 0
                else si - (if o > c then o - c else 0)) ∧
          (m.at p.1).inp_init_abund[iO]?
            = some (if (if o > c then o - c else 0) > si then (if o > c then o - c else 0) - si
                else 0)) ∧
      (∀ k, k ∉ parsed.map Prod.fst → (m.at k).inp_init_abund = []) := by
  obtain ⟨helems, hmCO, hmSiO⟩ := header_elements_eq header
  generalize hl : header.drop 1 = l at *
  set elems := (header_elements header).1 with helems_def
  have hCOmem : "CO" ∈ elems := by
    rw [helems]; by_cases h : "CO" ∈ l <;> simp [h]
  have hSiOmem : "SiO" ∈ elems := by
    rw [helems]; by_cases h : "SiO" ∈ l <;> simp [h]
  have hsub : ∀ x, x ∈ l → x ∈ elems := by
    intro x hx; rw [helems]; simp [hx]
  obtain ⟨iCO, hiCO⟩ := get_element_index_of_mem "CO" elems hCOmem
  obtain ⟨iSiO, hiSiO⟩ := get_element_index_of_mem "SiO" elems hSiOmem
  obtain ⟨iC, hiC⟩ := get_element_index_of_mem "C" elems (hsub _ hC)
  obtain ⟨iO, hiO⟩ := get_element_index_of_mem "O" elems (hsub _ hO)
  obtain ⟨iSi, hiSi⟩ := get_element_index_of_mem "Si" elems (hsub _ hSi)
  obtain ⟨m', hm', hrows, hother⟩ := load_initial_abundances_rows_spec elems
    (header_elements header).2.1 (header_elements header).2.2 iCO iC iO iSiO iSi
    hiCO hiC hiO hiSiO hiSi parsed [] hids (by intro p _; rfl)
  have hlenE : elems.length = l.length + (if (header_elements header).2.1 = true then 1 else 0)
      + (if (header_elements header).2.2 = true then 1 else 0) := by
    rw [helems, hmCO, hmSiO]
    by_cases h1 : "CO" ∈ l <;> by_cases h2 : "SiO" ∈ l <;> simp [h1, h2]
  have hpre : ∀ (i : ℕ) (name : String), l[i]? = some name → elems[i]? = some name := by
    intro i name hi
    have hil : i < l.length := by
      by_contra hc
      rw [List.getElem?_eq_none (by omega)] at hi
      exact Option.noConfusion hi
    rw [helems, List.append_assoc, List.getElem?_append_left hil]
    exact hi
  have nC := get_element_index_getElem? _ _ _ hiC
  have nO := get_element_index_getElem? _ _ _ hiO
  have nSi := get_element_index_getElem? _ _ _ hiSi
  have nCO := get_element_index_getElem? _ _ _ hiCO
  have nSiO := get_element_index_getElem? _ _ _ hiSiO
  have hpadCO : (if (header_elements header).2.1 = true then [(0 : K)] else [])
      = if "CO" ∈ l then [] else [0] := by
    rw [hmCO]; by_cases h : "CO" ∈ l <;> simp [h]
  have hpadSiO : (if (header_elements header).2.2 = true then [(0 : K)] else [])
      = if "SiO" ∈ l then [] else [0] := by
    rw [hmSiO]; by_cases h : "SiO" ∈ l <;> simp [h]
  refine ⟨elems, m', iC, iO, iSi, iCO, iSiO, ?_, helems, hCOmem, hSiOmem,
    ⟨hiC, hiO, hiSi, hiCO, hiSiO⟩, ⟨nC, nO, nSi, nCO, nSiO⟩, hpre, ?_, ?_⟩
  · simp only [load_initial_abundances, hm', Option.map_some']
  · intro p hp
    have hpl := hlen p hp
    rw [hrows p hp, hpadCO, hpadSiO]
    obtain ⟨hrest, hfive⟩ := load_initial_abundances_array_spec l p.2 iC iO iSi iCO iSiO
      hC hO hSi hpl (helems ▸ hiC) (helems ▸ hiO) (helems ▸ hiSi) (helems ▸ hiCO)
      (helems ▸ hiSiO)
    refine ⟨?_, hrest, ?_, hfive⟩
    · rw [premake_abund_length, premake_abund_length, hlenE, hmCO, hmSiO]
      by_cases h1 : "CO" ∈ l <;> by_cases h2 : "SiO" ∈ l <;> simp [h1, h2, hpl]
    · intro i name hi hname
      have hei := hpre i name hi
      apply hrest
      have hne : ∀ (e : String) (j : ℕ), elems[j]? = some e →
          e ∈ ["C", "O", "Si", "CO", "SiO"] → i ≠ j := by
        intro e j hj he hji
        rw [← hji, hei] at hj
        exact hname ((Option.some.inj hj) ▸ he)
      simp only [List.mem_cons, List.mem_singleton, List.not_mem_nil, or_false, not_or]
      exact ⟨hne _ _ nC (by simp), hne _ _ nO (by simp), hne _ _ nSi (by simp),
        hne _ _ nCO (by simp), hne _ _ nSiO (by simp)⟩
  · intro k hk
    rw [hother k hk]
    rfl

/-- C12: evaluation of `load_initial_abundances` on a file whose header names CO, with the row
C 3, O 5, Si 1, Fe 9, CO 7: CO is not missing (only SiO is appended), yet the loaded CO abundance
is 3, not 7, and C and O are reduced to 0 and 2 by the synthesis of CO (O then to 1 by SiO). -/
theorem load_initial_abundances_overwrites_CO :
    (header_elements abund_file_with_CO.header).2.1 = false ∧
    (load_initial_abundances (some abund_file_with_CO) []).map
        (fun r => (r.1, (r.2.at 1).inp_init_abund))
      = some (["C", "O", "Si", "Fe", "CO", "SiO"], [0, 1, 0, 9, 3, 1]) := by
  decide!

/-- Witness of C14: two cells with the species C, O, Si and Fe. -/
theorem load_initial_abundances_aligned_witness :
    ∃ (elems : List String) (m : CellStore ℚ) (iC iO iSi iCO iSiO : ℕ),
      load_initial_abundances
        (some { header := atoms_header,
                rows := atoms_rows.map
                  (fun p => { cell_id := some p.1, values := p.2.map some }) })
        [] = some (elems, m) ∧
      elems = atoms_header.drop 1 ++ (if "CO" ∈ atoms_header.drop 1 then [] else ["CO"])
          ++ (if "SiO" ∈ atoms_header.drop 1 then [] else ["SiO"]) ∧
      "CO" ∈ elems ∧ "SiO" ∈ elems ∧
      (get_element_index "C" elems = some iC ∧ get_element_index "O" elems = some iO ∧
        get_element_index "Si" elems = some iSi ∧ get_element_index "CO" elems = some iCO ∧
        get_element_index "SiO" elems = some iSiO) ∧
      (elems[iC]? = some "C" ∧ elems[iO]? = some "O" ∧ elems[iSi]? = some "Si" ∧
        elems[iCO]? = some "CO" ∧ elems[iSiO]? = some "SiO") ∧
      (∀ (i : ℕ) (name : String), (atoms_header.drop 1)[i]? = some name →
        elems[i]? = some name) ∧
      (∀ p ∈ atoms_rows, (m.at p.1).inp_init_abund.length = elems.length ∧
        (∀ i : ℕ, i ∉ [iC, iO, iSi, iCO, iSiO] →
          (m.at p.1).inp_init_abund[i]? = p.2[i]?) ∧
        (∀ (i : ℕ) (name : String), (atoms_header.drop 1)[i]? = some name →
          name ∉ ["C", "O", "Si", "CO", "SiO"] →
          (m.at p.1).inp_init_abund[i]? = p.2[i]?) ∧
        ∃ c o si, p.2[iC]? = some c ∧ p.2[iO]? = some o ∧ p.2[iSi]? = some si ∧
          (m.at p.1).inp_init_abund[iCO]? = some (if o > c then c else o) ∧
          (m.at p.1).inp_init_abund[iC]? = some (if o > c then 0 else c - o) ∧
          (m.at p.1).inp_init_abund[iSiO]?
            = some (if (if o > c then o - c else 0) > si then si
                else (if o > c then o - c else 0)) ∧
          (m.at p.1).inp_init_abund[iSi]?
            = some (if (if o > c then o - c else 0) > si then 0
                else si - (if o > c then o - c else 0)) ∧
          (m.at p.1).inp_init_abund[iO]?
            = some (if (if o > c then o - c else 0) > si then (if o > c then o - c else 0) - si
                else 0)) ∧
      (∀ k, k ∉ atoms_rows.map Prod.fst → (m.at k).inp_init_abund = []) :=
  load_initial_abundances_aligned atoms_header atoms_rows (by decide) (by decide) (by decide)
    (by decide) (by decide)

/-! ## Generated size arrays and the pile-up correction -/

/-- C13: evaluation of `gen_size_dist` for three bins on a network with two reactions, one of
them a nucleation reaction: the edges and sizes of the cell have the lengths 4 and 3, but the
distribution and delta arrays have length `2 * 3 = 6` (total reaction count), not `1 * 3 = 3`
(nucleation-reaction count, which `generate_sol_vector` uses for the size-distribution block). -/
theorem gen_size_dist_uses_all_reactions :
    mixed_net.n_nucleation_reactions * 3 = 3 ∧
    (gen_size_dist pow_floor decade_config mixed_net [(0, demo_cell)]).map
        (fun sd => ((sd.cell_inputs.at 0).inp_binEdges.length,
          (sd.cell_inputs.at 0).inp_binSizes.length,
          (sd.cell_inputs.at 0).inp_size_dist, (sd.cell_inputs.at 0).inp_delSZ))
      = some (4, 3, [0, 0, 0, 0, 0, 0], [0, 0, 0, 0, 0, 0]) := by
  decide

theorem CellStore.at_map_snd {K : Type} [Zero K] (m : CellStore K) (k : Int)
    (f : CellInput K → CellInput K) :
    List.lookup k (m.map (fun ic => (ic.1, f ic.2))) = (List.lookup k m).map f := by
  induction m with
  | nil => simp
  | cons e rest ih =>
    obtain ⟨a, b⟩ := e
    by_cases h : k = a
    · subst h; simp
    · have hb : (k == a) = false := by simpa using h
      simp only [List.map_cons, List.lookup_cons, hb]
      exact ih

theorem pileUp_map_at {K : Type} [LinearOrderedField K] (pw : K → K → K)
    (pile_up_factor : K) (n : ℕ) (cell_inputs : CellStore K) (k : Int) :
    (CellStore.at (cell_inputs.map (fun ic =>
      (ic.1, { ic.2 with
        inp_init_abund := scale_first n
          (pile_up_factor * pw (ic.2.inp_shock_time / ic.2.inp_cell_time) (-3))
          ic.2.inp_init_abund }))) k).inp_init_abund
      = scale_first n
          (pile_up_factor * pw ((cell_inputs.at k).inp_shock_time
            / (cell_inputs.at k).inp_cell_time) (-3))
          (cell_inputs.at k).inp_init_abund := by
  have hm := CellStore.at_map_snd cell_inputs k (fun c => { c with
    inp_init_abund := scale_first n
      (pile_up_factor * pw (c.inp_shock_time / c.inp_cell_time) (-3))
      c.inp_init_abund })
  unfold CellStore.at
  rw [hm]
  cases List.lookup k cell_inputs <;> simp [CellInput.empty, scale_first]

/-- The log line of `account_for_pileUp` reads past the end when the record of id 1 has no
abundance (or is missing): the run has no defined result. -/
theorem account_for_pileUp_log_past_end {K : Type} [LinearOrderedField K] (pw : K → K → K)
    (pile_up_factor : K) (initial_elements : List String) (cell_inputs : CellStore K)
    (h1 : (cell_inputs.at 1).inp_init_abund = []) :
    account_for_pileUp pw true pile_up_factor initial_elements cell_inputs = none := by
  unfold account_for_pileUp
  split
  · have he : (CellStore.at (cell_inputs.map (fun ic =>
        (ic.1, { ic.2 with
          inp_init_abund := scale_first initial_elements.length
            (pile_up_factor * pw (ic.2.inp_shock_time / ic.2.inp_cell_time) (-3))
            ic.2.inp_init_abund }))) 1).inp_init_abund.isEmpty = true := by
      rw [pileUp_map_at, h1]
      simp [scale_first]
    simp only [he, Bool.and_self, if_true]
  · rfl

/-- An abundance array shorter than the species list is written past its end by
`account_for_pileUp`: the run has no defined result. -/
theorem account_for_pileUp_short_array {K : Type} [LinearOrderedField K] (pw : K → K → K)
    (log_info : Bool) (pile_up_factor : K) (initial_elements : List String)
    (cell_inputs : CellStore K) (ic : Int × CellInput K) (hic : ic ∈ cell_inputs)
    (hshort : ic.2.inp_init_abund.length < initial_elements.length) :
    account_for_pileUp pw log_info pile_up_factor initial_elements cell_inputs = none := by
  have hall : ¬ (cell_inputs.all
      (fun ic => decide (initial_elements.length ≤ ic.2.inp_init_abund.length)) = true) := by
    rw [List.all_eq_true]
    intro h
    have := of_decide_eq_true (h ic hic)
    omega
  unfold account_for_pileUp
  split
  · rename_i h
    exact absurd h hall
  · rfl

theorem foldl_set_range {α : Type} (base : ℕ) (v : ℕ → α) (n : ℕ) (d : List α) :
    ((List.range n).foldl (fun d i => d.set (base + i) (v i)) d).length = d.length ∧
    ∀ p, ((List.range n).foldl (fun d i => d.set (base + i) (v i)) d)[p]?
      = if base ≤ p ∧ p < base + n ∧ p < d.length then some (v (p - base)) else d[p]? := by
  induction n with
  | zero =>
    refine ⟨rfl, fun p => ?_⟩
    have : ¬ (base ≤ p ∧ p < base + 0 ∧ p < d.length) := by omega
    rw [if_neg this]
    rfl
  | succ n ih =>
    obtain ⟨hl, hp⟩ := ih
    rw [List.range_succ, List.foldl_append]
    simp only [List.foldl_cons, List.foldl_nil, List.length_set]
    refine ⟨hl, fun p => ?_⟩
    rw [List.getElem?_set, hl, hp p]
    by_cases h1 : base + n = p
    · subst h1
      by_cases h2 : base + n < d.length
      · have e : base + n - base = n := by omega
        simp [h2, e]
      · have h3 : d[base + n]? = none := List.getElem?_eq_none (by omega)
        simp [h2, h3]
    · simp only [h1, if_false]
      by_cases h2 : base ≤ p ∧ p < base + n ∧ p < d.length
      · have h3 : base ≤ p ∧ p < base + (n + 1) ∧ p < d.length := by omega
        rw [if_pos h2, if_pos h3]
      · have h3 : ¬ (base ≤ p ∧ p < base + (n + 1) ∧ p < d.length) := by omega
        rw [if_neg h2, if_neg h3]

theorem remap_size_dist_prefix {K : Type} [Zero K] (R nb : ℕ) (grn_idx : List ℕ)
    (input_SD d : List K) (hd : d.length = R * nb) :
    ∀ m, m ≤ R →
      (remap_size_dist m nb grn_idx input_SD d).length = d.length ∧
      ∀ g s, g < m → s < nb →
        (remap_size_dist m nb grn_idx input_SD d)[g * nb + s]?
          = some (input_SD.getD (grn_idx.getD g 0 * nb + s) 0) := by
  intro m
  induction m with
  | zero => intro _; exact ⟨rfl, fun g s hg _ => absurd hg (Nat.not_lt_zero g)⟩
  | succ m ih =>
    intro hm
    obtain ⟨hl, hp⟩ := ih (by omega)
    have hstep : remap_size_dist (m + 1) nb grn_idx input_SD d
        = (List.range nb).foldl
            (fun d sid =>
              d.set (m * nb + sid) (input_SD.getD (grn_idx.getD m 0 * nb + sid) 0))
            (remap_size_dist m nb grn_idx input_SD d) := by
      unfold remap_size_dist
      rw [List.range_succ, List.foldl_append]
      rfl
    obtain ⟨hl', hp'⟩ := foldl_set_range (m * nb)
      (fun sid => input_SD.getD (grn_idx.getD m 0 * nb + sid) 0) nb
      (remap_size_dist m nb grn_idx input_SD d)
    rw [hstep]
    refine ⟨by rw [hl', hl], fun g s hg hs => ?_⟩
    rw [hp' (g * nb + s), hl, hd]
    have hR : (m + 1) * nb ≤ R * nb := Nat.mul_le_mul_right nb hm
    rw [Nat.add_mul] at hR
    by_cases hgm : g = m
    · subst hgm
      have hc : g * nb ≤ g * nb + s ∧ g * nb + s < g * nb + nb ∧ g * nb + s < R * nb := by
        omega
      have e : g * nb + s - g * nb = s := by omega
      rw [if_pos hc, e]
    · have hlt : g < m := by omega
      have h1 : (g + 1) * nb ≤ m * nb := Nat.mul_le_mul_right nb hlt
      rw [Nat.add_mul] at h1
      have hc : ¬ (m * nb ≤ g * nb + s ∧ g * nb + s < m * nb + nb ∧ g * nb + s < R * nb) := by
        omega
      rw [if_neg hc]
      exact hp g s hlt hs
theorem match_grains_inner (names : List String) (net : Network) (fn : ℕ) (g : List ℕ) :
    ∀ n, n ≤ g.length →
      ((List.range n).foldl
        (fun grn_idx gn_id =>
          if names[fn]? = first_product net gn_id then grn_idx.set gn_id fn else grn_idx)
        g).length = g.length ∧
      ∀ j, ((List.range n).foldl
        (fun grn_idx gn_id =>
          if names[fn]? = first_product net gn_id then grn_idx.set gn_id fn else grn_idx)
        g)[j]?
        = if j < n ∧ names[fn]? = first_product net j then some fn else g[j]? := by
  intro n
  induction n with
  | zero => intro _; exact ⟨rfl, fun j => by simp⟩
  | succ n ih =>
    intro hn
    obtain ⟨hl, hp⟩ := ih (by omega)
    rw [List.range_succ, List.foldl_append]
    simp only [List.foldl_cons, List.foldl_nil]
    by_cases hc : names[fn]? = first_product net n
    · rw [if_pos hc]
      refine ⟨by rw [List.length_set, hl], fun j => ?_⟩
      rw [List.getElem?_set, hl, hp j]
      by_cases hj : n = j
      · subst hj
        have h1 : n < g.length := by omega
        simp [h1, hc]
      · simp only [hj, if_false]
        by_cases h2 : j < n ∧ names[fn]? = first_product net j
        · rw [if_pos h2, if_pos ⟨by omega, h2.2⟩]
        · rw [if_neg h2, if_neg]
          intro h3
          exact h2 ⟨by omega, h3.2⟩
    · rw [if_neg hc]
      refine ⟨hl, fun j => ?_⟩
      rw [hp j]
      by_cases h2 : j < n ∧ names[fn]? = first_product net j
      · rw [if_pos h2, if_pos ⟨by omega, h2.2⟩]
      · rw [if_neg h2, if_neg]
        intro h3
        by_cases hj : j = n
        · subst hj; exact hc h3.2
        · exact h2 ⟨by omega, h3.2⟩

theorem match_grains_outer (names : List String) (net : Network) :
    ∀ n,
      ((List.range n).foldl
        (fun grn_idx fn_id =>
          (List.range net.n_reactions).foldl
            (fun grn_idx gn_id =>
              if names[fn_id]? = first_product net gn_id then grn_idx.set gn_id fn_id
              else grn_idx)
            grn_idx)
        (List.replicate net.n_reactions 0)).length = net.n_reactions ∧
      ∀ j, j < net.n_reactions → ∃ v,
        ((List.range n).foldl
          (fun grn_idx fn_id =>
            (List.range net.n_reactions).foldl
              (fun grn_idx gn_id =>
                if names[fn_id]? = first_product net gn_id then grn_idx.set gn_id fn_id
                else grn_idx)
              grn_idx)
          (List.replicate net.n_reactions 0))[j]? = some v ∧
        ((v < n ∧ names[v]? = first_product net j ∧
            ∀ f, v < f → f < n → names[f]? ≠ first_product net j) ∨
          (v = 0 ∧ ∀ f, f < n → names[f]? ≠ first_product net j)) := by
  intro n
  induction n with
  | zero =>
    refine ⟨by simp, fun j hj =>
      ⟨0, by simp [hj], Or.inr ⟨rfl, fun f hf => absurd hf (Nat.not_lt_zero f)⟩⟩⟩
  | succ n ih =>
    obtain ⟨hl, hp⟩ := ih
    rw [List.range_succ, List.foldl_append]
    simp only [List.foldl_cons, List.foldl_nil]
    obtain ⟨hl', hp'⟩ := match_grains_inner names net n _ net.n_reactions (le_of_eq hl.symm)
    refine ⟨by rw [hl', hl], fun j hj => ?_⟩
    obtain ⟨v, hv, hcase⟩ := hp j hj
    by_cases hc : names[n]? = first_product net j
    · refine ⟨n, ?_, Or.inl ⟨by omega, hc, fun f h1 h2 => by omega⟩⟩
      rw [hp' j, if_pos ⟨hj, hc⟩]
    · refine ⟨v, ?_, ?_⟩
      · rw [hp' j, if_neg (fun h => hc h.2)]
        exact hv
      · rcases hcase with ⟨h1, h2, h3⟩ | ⟨h1, h2⟩
        · refine Or.inl ⟨by omega, h2, fun f hf1 hf2 => ?_⟩
          by_cases hfn : f = n
          · subst hfn; exact hc
          · exact h3 f hf1 (by omega)
        · refine Or.inr ⟨h1, fun f hf => ?_⟩
          by_cases hfn : f = n
          · subst hfn; exact hc
          · exact h2 f (by omega)

theorem match_grains_spec (names : List String) (net : Network) (j : ℕ)
    (hj : j < net.n_reactions) :
    ((match_grains names net).getD j 0 < names.length ∧
      names[(match_grains names net).getD j 0]? = first_product net j ∧
      ∀ f, (match_grains names net).getD j 0 < f → f < names.length →
        names[f]? ≠ first_product net j) ∨
    ((match_grains names net).getD j 0 = 0 ∧
      ∀ f, f < names.length → names[f]? ≠ first_product net j) := by
  obtain ⟨_, hp⟩ := match_grains_outer names net names.length
  obtain ⟨v, hv, hcase⟩ := hp j hj
  have e : (match_grains names net).getD j 0 = v := by
    unfold match_grains
    rw [List.getD_eq_getElem?_getD, hv]
    rfl
  rw [e]
  rcases hcase with ⟨h1, h2, h3⟩ | ⟨h1, h2⟩
  · exact Or.inl ⟨h1, h2, h3⟩
  · exact Or.inr ⟨h1, h2⟩
theorem foldlM_store_spec {K R : Type} [Zero K] (step : CellStore K → R → Option (CellStore K))
    (idOf : R → Int) (P : R → CellInput K → Prop)
    (hstep : ∀ m r, ∃ m', step m r = some m' ∧ P r (m'.at (idOf r)) ∧
      ∀ k, k ≠ idOf r → m'.at k = m.at k) :
    ∀ (rows : List R) (m : CellStore K), (rows.map idOf).Nodup →
      ∃ m', rows.foldlM step m = some m' ∧ (∀ r ∈ rows, P r (m'.at (idOf r))) ∧
        ∀ k, k ∉ rows.map idOf → m'.at k = m.at k := by
  intro rows
  induction rows with
  | nil => intro m _; exact ⟨m, rfl, by simp, by simp⟩
  | cons r rest ih =>
    intro m hnd
    obtain ⟨m1, hm1, hP, hother⟩ := hstep m r
    simp only [List.map_cons, List.nodup_cons] at hnd
    obtain ⟨m', hm', hrest, hk⟩ := ih m1 hnd.2
    refine ⟨m', ?_, ?_, ?_⟩
    · simp only [List.foldlM_cons, hm1, Option.bind_eq_bind, Option.some_bind]
      exact hm'
    · intro q hq
      rcases List.mem_cons.mp hq with rfl | hq
      · rw [hk _ hnd.1]; exact hP
      · exact hrest q hq
    · intro k hkn
      simp only [List.map_cons, List.mem_cons, not_or] at hkn
      rw [hk k hkn.2]
      exact hother k hkn.1

theorem resize_length {K : Type} [Zero K] (v : List K) (n : ℕ) : (resize v n).length = n := by
  simp only [resize, List.length_append, List.length_take, List.length_replicate]
  omega

theorem load_sizeDist_row_spec {K : Type} [Zero K] (net : Network) (numBins : ℕ)
    (size_bins_init init_bin_edges : List K) (grn_idx : List ℕ) (m : CellStore K)
    (r : Int × K × List K) :
    ∃ m', load_sizeDist_row net numBins size_bins_init init_bin_edges grn_idx
        (parsed_size_row r) m = some m' ∧
      ((m'.at r.1).inp_size_dist.length = net.n_reactions * numBins ∧
        ∀ g s, g < net.n_reactions → s < numBins →
          (m'.at r.1).inp_size_dist[g * numBins + s]?
            = some (r.2.2.getD (grn_idx.getD g 0 * numBins + s) 0)) ∧
      ∀ k, k ≠ r.1 → m'.at k = m.at k := by
  simp only [load_sizeDist_row, parsed_size_row, cast_all_map_some, Option.bind_eq_bind,
    Option.some_bind, Option.pure_def]
  refine ⟨_, rfl, ?_, fun k hk => CellStore.at_modify_of_ne _ _ _ _ hk⟩
  rw [CellStore.at_modify_self]
  obtain ⟨hl, hp⟩ := remap_size_dist_prefix net.n_reactions numBins grn_idx r.2.2
    (resize (m.at r.1).inp_size_dist (net.n_reactions * numBins)) (resize_length _ _)
    net.n_reactions (le_refl _)
  exact ⟨by rw [hl, resize_length], hp⟩
theorem load_sizeDist_some {K : Type} [LinearOrderedField K] [FloorRing K] (pw : K → K → K)
    (log10 : K → K) (names : List String) (sizes : List K) (rows : List (Int × K × List K))
    (net : Network) (cell_inputs : CellStore K) (hids : (rows.map Prod.fst).Nodup) :
    ∃ sd, load_sizeDist pw log10
        (some { names := names, sizes := sizes.map some, rows := rows.map parsed_size_row })
        net cell_inputs = some sd ∧
      sd.numBins = sizes.length ∧ sd.size_bins_init = sizes ∧
      sd.init_bin_edges = (List.range (sizes.length + 1)).map (fun (n : ℕ) =>
        pw 10 (((⌊log10 (sizes.getD 0 0)⌋ : ℤ) : K) + (n : K)
          * ((((⌊log10 (sizes.getD (sizes.length - 1) 0)⌋ : ℤ) : K) + 1
              - ((⌊log10 (sizes.getD 0 0)⌋ : ℤ) : K)) / (sizes.length : K)))) ∧
      (∀ r ∈ rows, (sd.cell_inputs.at r.1).inp_size_dist.length
          = net.n_reactions * sizes.length ∧
        ∀ g s, g < net.n_reactions → s < sizes.length →
          (sd.cell_inputs.at r.1).inp_size_dist[g * sizes.length + s]?
            = some (r.2.2.getD ((match_grains names net).getD g 0 * sizes.length + s) 0)) ∧
      (∀ k, k ∉ rows.map Prod.fst → sd.cell_inputs.at k = cell_inputs.at k) := by
  obtain ⟨m', hm', hrows, hother⟩ := foldlM_store_spec
    (fun m (r : Int × K × List K) => load_sizeDist_row net sizes.length sizes
      ((List.range (sizes.length + 1)).map (fun (n : ℕ) =>
        pw 10 (((⌊log10 (sizes.getD 0 0)⌋ : ℤ) : K) + (n : K)
          * ((((⌊log10 (sizes.getD (sizes.length - 1) 0)⌋ : ℤ) : K) + 1
              - ((⌊log10 (sizes.getD 0 0)⌋ : ℤ) : K)) / (sizes.length : K)))))
      (match_grains names net) (parsed_size_row r) m)
    Prod.fst
    (fun r c => c.inp_size_dist.length = net.n_reactions * sizes.length ∧
      ∀ g s, g < net.n_reactions → s < sizes.length →
        c.inp_size_dist[g * sizes.length + s]?
          = some (r.2.2.getD ((match_grains names net).getD g 0 * sizes.length + s) 0))
    (fun m r => load_sizeDist_row_spec net sizes.length sizes _ (match_grains names net) m r)
    rows cell_inputs hids
  simp only [load_sizeDist, cast_all_map_some, List.foldlM_map, hm', Option.map_some']
  exact ⟨_, rfl, rfl, rfl, rfl, hrows, hother⟩
/-- Counterexample to C20 as stated.  File grains `X`, `A` with the values 7, 9 on a network with
the grains `A`, `B`: `X` matches no reaction, yet its value 7 is the distribution entry of
reaction `B`, which has no match and reads index 0.  File grains `A`, `A` with the values 7, 9:
position 0 names the product of reaction 0, yet the entry of reaction 0 is 9, read from
position 1. -/
theorem load_sizeDist_alias_counterexample :
    (∀ g, g < grains_net.n_reactions → first_product grains_net g ≠ alias_file.names[0]?) ∧
    (load_sizeDist pow_floor log10_floor (some alias_file) grains_net []).map
        (fun sd => (sd.cell_inputs.at 0).inp_size_dist) = some [9, 7] ∧
    first_product grains_net 0 = twice_file.names[0]? ∧
    (load_sizeDist pow_floor log10_floor (some twice_file) grains_net []).map
        (fun sd => (sd.cell_inputs.at 0).inp_size_dist) = some [9, 7] := by
  decide

/-- C20 (amended): for a file with at least one grain name, whose sizes and rows parse, with
distinct cell ids and `numGrains * numBins` values per row, `load_sizeDist` returns, and for every
row, reaction `g` and bin `s`: if `f` is the last position whose file name is the first product of
reaction `g`, entry `g * numBins + s` of the cell's distribution is the row's value
`f * numBins + s`; if no file name matches reaction `g` it is the row's value `0 * numBins + s`;
and for a file grain at a position `f ≥ 1` that matches no reaction, the entry is read from the
values of another position. -/
theorem load_sizeDist_remap {K : Type} [LinearOrderedField K] [FloorRing K] (pw : K → K → K)
    (log10 : K → K) (names : List String) (sizes : List K) (rows : List (Int × K × List K))
    (net : Network) (cell_inputs : CellStore K) (hnames : names ≠ [])
    (hids : (rows.map Prod.fst).Nodup)
    (hvals : ∀ r ∈ rows, r.2.2.length = names.length * sizes.length) :
    ∃ sd, load_sizeDist pw log10
        (some { names := names, sizes := sizes.map some, rows := rows.map parsed_size_row })
        net cell_inputs = some sd ∧
      sd.numBins = sizes.length ∧
      ∀ r ∈ rows, ∀ g s, g < net.n_reactions → s < sizes.length →
        (∀ f, f < names.length → names[f]? = first_product net g →
          (∀ f', f < f' → f' < names.length → names[f']? ≠ first_product net g) →
          (sd.cell_inputs.at r.1).inp_size_dist[g * sizes.length + s]?
            = r.2.2[f * sizes.length + s]?) ∧
        ((∀ f, f < names.length → names[f]? ≠ first_product net g) →
          (sd.cell_inputs.at r.1).inp_size_dist[g * sizes.length + s]?
            = r.2.2[0 * sizes.length + s]?) ∧
        (∀ f, 1 ≤ f → (∀ g', g' < net.n_reactions → names[f]? ≠ first_product net g') →
          ∃ f', f' ≠ f ∧ f' < names.length ∧
            (sd.cell_inputs.at r.1).inp_size_dist[g * sizes.length + s]?
              = r.2.2[f' * sizes.length + s]?) := by
  obtain ⟨sd, hsd, hnb, _, _, hrows, _⟩ :=
    load_sizeDist_some pw log10 names sizes rows net cell_inputs hids
  refine ⟨sd, hsd, hnb, ?_⟩
  intro r hr g s hg hs
  obtain ⟨_, hentry⟩ := hrows r hr
  have hpos : 0 < names.length := List.length_pos.mpr hnames
  have hval : ∀ v, v < names.length →
      r.2.2[v * sizes.length + s]? = some (r.2.2.getD (v * sizes.length + s) 0) := by
    intro v hv
    have h1 : (v + 1) * sizes.length ≤ names.length * sizes.length :=
      Nat.mul_le_mul_right _ hv
    rw [Nat.add_mul] at h1
    have h2 : v * sizes.length + s < r.2.2.length := by
      rw [hvals r hr]; omega
    rw [List.getD_eq_getElem?_getD, List.getElem?_eq_getElem h2]
    rfl
  rw [hentry g s hg hs]
  have hspec := match_grains_spec names net g hg
  refine ⟨?_, ?_, ?_⟩
  · intro f hf hmatch hlast
    have e : (match_grains names net).getD g 0 = f := by
      rcases hspec with ⟨h1, h2, h3⟩ | ⟨_, h2⟩
      · by_contra hne
        rcases Nat.lt_or_gt_of_ne hne with hlt | hgt
        · exact h3 f hlt hf hmatch
        · exact hlast _ hgt h1 h2
      · exact absurd hmatch (h2 f hf)
    rw [e, hval f hf]
  · intro hnone
    have e : (match_grains names net).getD g 0 = 0 := by
      rcases hspec with ⟨h1, h2, _⟩ | ⟨h1, _⟩
      · exact absurd h2 (hnone _ h1)
      · exact h1
    rw [e, hval 0 hpos]
  · intro f hf hnone
    refine ⟨(match_grains names net).getD g 0, ?_, ?_, ?_⟩
    · rcases hspec with ⟨_, h2, _⟩ | ⟨h1, _⟩
      · intro e
        rw [e] at h2
        exact hnone g hg h2
      · omega
    · rcases hspec with ⟨h1, _, _⟩ | ⟨h1, _⟩
      · exact h1
      · omega
    · rcases hspec with ⟨h1, _, _⟩ | ⟨h1, _⟩
      · rw [hval _ h1]
      · rw [h1, hval 0 hpos]

/-- Witness of C20 (amended): the file grains `X`, `A` with one bin and the row 7, 9 for cell 0 on
the network with the grains `A`, `B`. -/
theorem load_sizeDist_remap_witness :
    ∃ sd, load_sizeDist pow_floor log10_floor
        (some { names := ["X", "A"], sizes := ([1] : List ℚ).map some,
                rows := ([(0, 2, [7, 9])] : List (Int × ℚ × List ℚ)).map parsed_size_row })
        grains_net [] = some sd ∧
      sd.numBins = ([1] : List ℚ).length ∧
      ∀ r ∈ ([(0, 2, [7, 9])] : List (Int × ℚ × List ℚ)), ∀ g s,
        g < grains_net.n_reactions → s < ([1] : List ℚ).length →
        (∀ f, f < ["X", "A"].length → ["X", "A"][f]? = first_product grains_net g →
          (∀ f', f < f' → f' < ["X", "A"].length →
            ["X", "A"][f']? ≠ first_product grains_net g) →
          (sd.cell_inputs.at r.1).inp_size_dist[g * ([1] : List ℚ).length + s]?
            = r.2.2[f * ([1] : List ℚ).length + s]?) ∧
        ((∀ f, f < ["X", "A"].length → ["X", "A"][f]? ≠ first_product grains_net g) →
          (sd.cell_inputs.at r.1).inp_size_dist[g * ([1] : List ℚ).length + s]?
            = r.2.2[0 * ([1] : List ℚ).length + s]?) ∧
        (∀ f, 1 ≤ f →
          (∀ g', g' < grains_net.n_reactions → ["X", "A"][f]? ≠ first_product grains_net g') →
          ∃ f', f' ≠ f ∧ f' < ["X", "A"].length ∧
            (sd.cell_inputs.at r.1).inp_size_dist[g * ([1] : List ℚ).length + s]?
              = r.2.2[f' * ([1] : List ℚ).length + s]?) :=
  load_sizeDist_remap pow_floor log10_floor ["X", "A"] [1] [(0, 2, [7, 9])] grains_net []
    (by decide) (by decide) (by decide)
/-! ## Strictly increasing bin edges -/

theorem alpha_of_ratio (mu : ℝ) :
    (sputter_pair Real.rpow 1 mu 1).alpha
      = if 1 < mu then 0.3 * (mu - 0.6) ^ ((2 : ℝ) / 3)
        else if mu ≤ 1 / 2 then 0.2
        else 0.1 * (1 / mu) + 0.25 * ((mu - 1 / 2) * (mu - 1 / 2)) := by
  simp only [sputter_pair, numbers.one, numbers.onehalf, numbers.onefourth, numbers.twothird,
    square, div_one, gt_iff_lt, Real.rpow_eq_pow]
  norm_num

theorem alpha_right_limit :
    Filter.Tendsto (fun mu : ℝ => (sputter_pair Real.rpow 1 mu 1).alpha)
      (nhdsWithin 1 (Set.Ioi 1)) (nhds (0.3 * (0.4 : ℝ) ^ ((2 : ℝ) / 3))) := by
  have hg : ContinuousAt (fun mu : ℝ => 0.3 * (mu - 0.6) ^ ((2 : ℝ) / 3)) 1 := by
    apply ContinuousAt.mul continuousAt_const
    apply ContinuousAt.rpow_const
    · exact (continuousAt_id.sub continuousAt_const)
    · right; norm_num
  have hg1 : (fun mu : ℝ => 0.3 * (mu - 0.6) ^ ((2 : ℝ) / 3)) 1
      = 0.3 * (0.4 : ℝ) ^ ((2 : ℝ) / 3) := by norm_num
  have ht : Filter.Tendsto (fun mu : ℝ => 0.3 * (mu - 0.6) ^ ((2 : ℝ) / 3))
      (nhdsWithin 1 (Set.Ioi 1)) (nhds (0.3 * (0.4 : ℝ) ^ ((2 : ℝ) / 3))) := by
    rw [← hg1]
    exact hg.tendsto.mono_left nhdsWithin_le_nhds
  refine ht.congr' ?_
  filter_upwards [self_mem_nhdsWithin] with mu hmu
  have hmu' : (1 : ℝ) < mu := hmu
  rw [alpha_of_ratio, if_pos hmu']

theorem alpha_jump_ne : (0.3 : ℝ) * (0.4 : ℝ) ^ ((2 : ℝ) / 3) ≠ 0.1625 := by
  intro h
  have h1 : ((0.4 : ℝ) ^ ((2 : ℝ) / 3)) = 13 / 24 := by
    have : (0.4 : ℝ) ^ ((2 : ℝ) / 3) = 0.1625 / 0.3 := by
      rw [← h]; field_simp
    rw [this]; norm_num
  have h2 : ((0.4 : ℝ) ^ ((2 : ℝ) / 3)) ^ (3 : ℕ) = (0.4 : ℝ) ^ (2 : ℕ) := by
    rw [← Real.rpow_natCast, ← Real.rpow_mul (by norm_num), ← Real.rpow_natCast]
    norm_num
  rw [h1] at h2
  norm_num at h2

theorem alpha_at_one_value : (sputter_pair Real.rpow 1 1 1).alpha = 0.1625 := by
  rw [alpha_of_ratio]
  norm_num

theorem alpha_continuous_at_half :
    ContinuousAt (fun mu : ℝ => (sputter_pair Real.rpow 1 mu 1).alpha) (1 / 2) := by
  have hG : Continuous (fun mu : ℝ => if mu ≤ 1 / 2 then (0.2 : ℝ)
      else 0.1 * (1 / max mu (1 / 4)) + 0.25 * ((mu - 1 / 2) * (mu - 1 / 2))) := by
    apply Continuous.if_le
    · exact continuous_const
    · apply Continuous.add
      · apply Continuous.mul continuous_const
        apply Continuous.div continuous_const (continuous_id.max continuous_const)
        intro x
        have : (0 : ℝ) < max x (1 / 4) := lt_max_of_lt_right (by norm_num)
        exact ne_of_gt this
      · exact Continuous.mul continuous_const
          ((continuous_id.sub continuous_const).mul (continuous_id.sub continuous_const))
    · exact continuous_id
    · exact continuous_const
    · intro x hx
      simp only [id] at hx
      rw [hx]
      norm_num
  refine hG.continuousAt.congr ?_
  have hmem : Set.Ioo (1 / 4 : ℝ) 1 ∈ nhds (1 / 2 : ℝ) :=
    Ioo_mem_nhds (by norm_num) (by norm_num)
  filter_upwards [hmem] with mu hmu
  rw [alpha_of_ratio, if_neg (not_lt.mpr hmu.2.le), max_eq_left hmu.1.le]

theorem alpha_left_continuous_at_one :
    ContinuousWithinAt (fun mu : ℝ => (sputter_pair Real.rpow 1 mu 1).alpha) (Set.Iic 1) 1 := by
  have hg : ContinuousAt
      (fun mu : ℝ => 0.1 * (1 / mu) + 0.25 * ((mu - 1 / 2) * (mu - 1 / 2))) 1 := by
    apply ContinuousAt.add
    · apply ContinuousAt.mul continuousAt_const
      exact ContinuousAt.div continuousAt_const continuousAt_id (by norm_num)
    · exact ContinuousAt.mul continuousAt_const
        ((continuousAt_id.sub continuousAt_const).mul (continuousAt_id.sub continuousAt_const))
  refine hg.continuousWithinAt.congr_of_eventuallyEq ?_ ?_
  · have hmem : Set.Ioi (1 / 2 : ℝ) ∈ nhdsWithin (1 : ℝ) (Set.Iic 1) :=
      mem_nhdsWithin_of_mem_nhds (Ioi_mem_nhds (by norm_num))
    filter_upwards [hmem, self_mem_nhdsWithin] with mu h1 h2
    have h1' : (1 / 2 : ℝ) < mu := h1
    have h2' : mu ≤ (1 : ℝ) := h2
    rw [alpha_of_ratio, if_neg (not_lt.mpr h2'), if_neg (not_le.mpr h1')]
  · rw [alpha_of_ratio]
    norm_num

/-- Counterexample to C17 as stated: over the reals, with the real power, alpha as a function of
the mass ratio is not continuous at the branch boundary `mu = 1`. -/
theorem alpha_not_continuous_at_one :
    ¬ ContinuousAt (fun mu : ℝ => (sputter_pair Real.rpow 1 mu 1).alpha) 1 := by
  intro hc
  have h1 : Filter.Tendsto (fun mu : ℝ => (sputter_pair Real.rpow 1 mu 1).alpha)
      (nhdsWithin 1 (Set.Ioi 1)) (nhds ((sputter_pair Real.rpow 1 1 1).alpha)) :=
    hc.tendsto.mono_left nhdsWithin_le_nhds
  have h2 := tendsto_nhds_unique h1 alpha_right_limit
  rw [alpha_at_one_value] at h2
  exact alpha_jump_ne h2.symm

/-- C17 (amended): over the reals, with the real power, alpha as a function of the mass ratio is
continuous at the branch boundary `mu = 0.5`; at `mu = 1` it is continuous from the left, with
the value `0.1625`, while its limit from the right is `0.3 * 0.4 ^ (2 / 3)`, which differs from
`0.1625`. -/
theorem alpha_continuity_at_boundaries :
    ContinuousAt (fun mu : ℝ => (sputter_pair Real.rpow 1 mu 1).alpha) (1 / 2) ∧
    ContinuousWithinAt (fun mu : ℝ => (sputter_pair Real.rpow 1 mu 1).alpha) (Set.Iic 1) 1 ∧
    (sputter_pair Real.rpow 1 1 1).alpha = 0.1625 ∧
    Filter.Tendsto (fun mu : ℝ => (sputter_pair Real.rpow 1 mu 1).alpha)
      (nhdsWithin 1 (Set.Ioi 1)) (nhds (0.3 * (0.4 : ℝ) ^ ((2 : ℝ) / 3))) ∧
    (0.3 : ℝ) * (0.4 : ℝ) ^ ((2 : ℝ) / 3) ≠ 0.1625 :=
  ⟨alpha_continuous_at_half, alpha_left_continuous_at_one, alpha_at_one_value,
    alpha_right_limit, alpha_jump_ne⟩
/-- C19: evaluation of `load_sizeDist` on a file with three sizes, followed by
`generate_sol_vector` with a configured bin count of two: `numBins` is 3 after the file is read and
the cell has `1 * 3` distribution values, but the solution vector is resized to
`2 + 4 * 1 + 1 * 2 = 8` entries, with the configured count, before the blocks are appended. -/
theorem generate_sol_vector_ignores_file_bins :
    demo_config.bin_number = some 2 ∧
    (load_sizeDist pow_floor log10_floor (some three_bin_file) demo_net [(0, demo_cell)]).map
        (fun sd => (sd.numBins, (sd.cell_inputs.at 0).inp_size_dist,
          ((generate_sol_vector 4 demo_net ["C", "O"] demo_config sd.cell_inputs).at
            0).inp_solution_vector))
      = some (3, [6, 7, 8],
          List.replicate (2 + 4 * 1 + 1 * 2) 0 ++ [3, 5] ++ List.replicate 4 0 ++ [6, 7, 8]) := by
  decide

/-- Without rounding, `premake_rnd` is `premake`. -/
theorem premake_rnd_id {K : Type} [LinearOrderedField K] (s1 s2 sp : ℕ) (cell_id : Int)
    (cell_inputs : CellStore K) :
    premake_rnd id s1 s2 sp cell_id cell_inputs = premake s1 s2 sp cell_id cell_inputs := by
  unfold premake_rnd premake premake_abund_rnd premake_abund
  simp only [id]

theorem premake_rnd_at {K : Type} [LinearOrderedField K] (rnd : K → K) (s1 s2 sp : ℕ)
    (cell_id : Int) (cell_inputs : CellStore K) :
    ((premake_rnd rnd s1 s2 sp cell_id cell_inputs).at cell_id).inp_init_abund
      = premake_abund_rnd rnd s1 s2 sp (cell_inputs.at cell_id).inp_init_abund := by
  unfold premake_rnd
  rw [CellStore.at_modify_self]

/-- C24 (amended): `premake` in the arithmetic of type `double`, where the subtraction is
rounded by `rnd` and rounding keeps the sign.  For abundances `x1`, `x2` at distinct indices
`s1`, `s2`, `sp` of a cell, the product entry is the smaller abundance and the entry of that
reactant is `0`, so that reactant is conserved exactly; the entry of the other reactant is the
rounded difference, so its total is conserved when the subtraction is exact; if `x1` and `x2` are
nonnegative so are the three entries; and the entries at all other indices are unchanged. -/
theorem premake_rnd_conserves {K : Type} [LinearOrderedField K] (rnd : K → K) (s1 s2 sp : ℕ)
    (cell_id : Int) (cell_inputs : CellStore K) (x1 x2 : K)
    (hrnd : ∀ x, 0 ≤ x → 0 ≤ rnd x)
    (h12 : s1 ≠ s2) (h1p : s1 ≠ sp) (h2p : s2 ≠ sp)
    (hx1 : (cell_inputs.at cell_id).inp_init_abund[s1]? = some x1)
    (hx2 : (cell_inputs.at cell_id).inp_init_abund[s2]? = some x2)
    (hsp : sp < (cell_inputs.at cell_id).inp_init_abund.length) :
    ∃ y1 y2 yp,
      ((premake_rnd rnd s1 s2 sp cell_id cell_inputs).at cell_id).inp_init_abund[s1]? = some y1 ∧
      ((premake_rnd rnd s1 s2 sp cell_id cell_inputs).at cell_id).inp_init_abund[s2]? = some y2 ∧
      ((premake_rnd rnd s1 s2 sp cell_id cell_inputs).at cell_id).inp_init_abund[sp]? = some yp ∧
      (x2 > x1 → yp = x1 ∧ y1 = 0 ∧ y2 = rnd (x2 - x1) ∧ y1 + yp = x1 ∧
        (rnd (x2 - x1) = x2 - x1 → y2 + yp = x2)) ∧
      (¬ x2 > x1 → yp = x2 ∧ y2 = 0 ∧ y1 = rnd (x1 - x2) ∧ y2 + yp = x2 ∧
        (rnd (x1 - x2) = x1 - x2 → y1 + yp = x1)) ∧
      (0 ≤ x1 → 0 ≤ x2 → 0 ≤ y1 ∧ 0 ≤ y2 ∧ 0 ≤ yp) ∧
      (∀ i, i ≠ s1 → i ≠ s2 → i ≠ sp →
        ((premake_rnd rnd s1 s2 sp cell_id cell_inputs).at cell_id).inp_init_abund[i]?
          = (cell_inputs.at cell_id).inp_init_abund[i]?) := by
  rw [premake_rnd_at]
  generalize (cell_inputs.at cell_id).inp_init_abund = a at hx1 hx2 hsp
  have hl1 : s1 < a.length := by
    by_contra h
    rw [List.getElem?_eq_none (by omega)] at hx1
    exact Option.noConfusion hx1
  have hl2 : s2 < a.length := by
    by_contra h
    rw [List.getElem?_eq_none (by omega)] at hx2
    exact Option.noConfusion hx2
  have e1 : a.getD s1 0 = x1 := by simp [hx1]
  have e2 : a.getD s2 0 = x2 := by simp [hx2]
  have hpa : premake_abund_rnd rnd s1 s2 sp a
      = if x2 > x1 then ((a.set sp x1).set s2 (rnd (x2 - x1))).set s1 0
        else ((a.set sp x2).set s1 (rnd (x1 - x2))).set s2 0 := by
    unfold premake_abund_rnd
    simp only [e1, e2]
  have hother : ∀ i, i ≠ s1 → i ≠ s2 → i ≠ sp →
      (premake_abund_rnd rnd s1 s2 sp a)[i]? = a[i]? := by
    intro i h1 h2 h3
    rw [hpa]
    split <;> simp [List.getElem?_set, Ne.symm h1, Ne.symm h2, Ne.symm h3]
  by_cases hlt : x2 > x1
  · refine ⟨0, rnd (x2 - x1), x1, ?_, ?_, ?_, ?_, ?_, ?_, hother⟩
    · rw [hpa, if_pos hlt]
      simp [List.getElem?_set, h12, Ne.symm h12, h1p, h2p, hl1]
    · rw [hpa, if_pos hlt]
      simp [List.getElem?_set, h12, Ne.symm h12, h1p, h2p, hl2]
    · rw [hpa, if_pos hlt]
      simp [List.getElem?_set, h12, Ne.symm h12, h1p, h2p, hsp]
    · intro _
      exact ⟨rfl, rfl, rfl, zero_add x1, fun he => by rw [he]; ring⟩
    · intro hn
      exact absurd hlt hn
    · intro h1 _
      exact ⟨le_refl _, hrnd _ (sub_nonneg.mpr hlt.le), h1⟩
  · have hle : x2 ≤ x1 := not_lt.mp hlt
    refine ⟨rnd (x1 - x2), 0, x2, ?_, ?_, ?_, ?_, ?_, ?_, hother⟩
    · rw [hpa, if_neg hlt]
      simp [List.getElem?_set, h12, Ne.symm h12, h1p, h2p, hl1]
    · rw [hpa, if_neg hlt]
      simp [List.getElem?_set, h12, Ne.symm h12, h1p, h2p, hl2]
    · rw [hpa, if_neg hlt]
      simp [List.getElem?_set, h12, Ne.symm h12, h1p, h2p, hsp]
    · intro hp
      exact absurd hp hlt
    · intro _
      exact ⟨rfl, rfl, rfl, zero_add x2, fun he => by rw [he]; ring⟩
    · intro _ h2
      exact ⟨hrnd _ (sub_nonneg.mpr hle), le_refl _, h2⟩

/-- Witness of C24 (amended): in binary64, abundances `3` and `5` at the indices 0 and 1, the
product at index 2. -/
theorem premake_rnd_conserves_witness :
    ∃ y1 y2 yp,
      ((premake_rnd rn64 0 1 2 7 [(7, abund_cell)]).at 7).inp_init_abund[0]? = some y1 ∧
      ((premake_rnd rn64 0 1 2 7 [(7, abund_cell)]).at 7).inp_init_abund[1]? = some y2 ∧
      ((premake_rnd rn64 0 1 2 7 [(7, abund_cell)]).at 7).inp_init_abund[2]? = some yp ∧
      ((5 : ℚ) > 3 → yp = 3 ∧ y1 = 0 ∧ y2 = rn64 (5 - 3) ∧ y1 + yp = 3 ∧
        (rn64 (5 - 3) = 5 - 3 → y2 + yp = 5)) ∧
      (¬ (5 : ℚ) > 3 → yp = 5 ∧ y2 = 0 ∧ y1 = rn64 (3 - 5) ∧ y2 + yp = 5 ∧
        (rn64 (3 - 5) = 3 - 5 → y1 + yp = 3)) ∧
      ((0 : ℚ) ≤ 3 → (0 : ℚ) ≤ 5 → 0 ≤ y1 ∧ 0 ≤ y2 ∧ 0 ≤ yp) ∧
      (∀ i, i ≠ 0 → i ≠ 1 → i ≠ 2 →
        ((premake_rnd rn64 0 1 2 7 [(7, abund_cell)]).at 7).inp_init_abund[i]?
          = (CellStore.at [(7, abund_cell)] 7).inp_init_abund[i]?) :=
  premake_rnd_conserves rn64 0 1 2 7 [(7, abund_cell)] 3 5 rn64_nonneg (by decide) (by decide)
    (by decide) (by rfl) (by rfl) (by decide)

/-- Counterexample to C24 as stated: in binary64, with the doubles `x1 = 0.001` and `x2 = 0.009`
at the indices 0 and 1 and the product at index 2, `premake` leaves `0`, the double `0.008` and
`x1`; the entry at `s2` plus the product is not `x2`, neither as the exact sum of the two doubles
nor as their sum in binary64, which is the double `0.009000000000000001`. -/
theorem premake_rounding_counterexample :
    ((premake_rnd rn64 0 1 2 7 [(7, milli_cell)]).at 7).inp_init_abund
      = [0, rn64 (8 / 1000), rn64 (1 / 1000)] ∧
    rn64 (8 / 1000) + rn64 (1 / 1000) ≠ rn64 (9 / 1000) ∧
    rn64 (rn64 (8 / 1000) + rn64 (1 / 1000)) = rn64 (9000000000000001 / 10 ^ 18) ∧
    rn64 (rn64 (8 / 1000) + rn64 (1 / 1000)) ≠ rn64 (9 / 1000) := by
  decide!

/-! ## The threshold energy is defined -/

/-- C25: for positive masses with `mi / md ≤ 0.3`, the quantity `g = 4 * mi * md / (mi + md) ^ 2`
of the second branch of the threshold energy lies strictly between 0 and 1, so `g * (1 - g)` is
positive, and for a positive binding energy the threshold energy is `u0 / (g * (1 - g))` and
positive. -/
theorem Eth_else_branch_defined {K : Type} [LinearOrderedField K] (pw : K → K → K)
    (u0 md mi : K) (hmi : 0 < mi) (hmd : 0 < md) (hu0 : 0 < u0) (hr : mi / md ≤ 0.3) :
    0 < 4 * mi * md / (mi + md) ^ 2 ∧ 4 * mi * md / (mi + md) ^ 2 < 1 ∧
    0 < 4 * mi * md / (mi + md) ^ 2 * (1 - 4 * mi * md / (mi + md) ^ 2) ∧
    (sputter_pair pw u0 md mi).Eth
      = u0 / (4 * mi * md / (mi + md) ^ 2 * (1 - 4 * mi * md / (mi + md) ^ 2)) ∧
    0 < (sputter_pair pw u0 md mi).Eth := by
  have hsum : 0 < (mi + md) ^ 2 := by positivity
  have hlt : mi < md := by
    have h1 : mi ≤ 0.3 * md := (div_le_iff₀ hmd).mp hr
    have h2 : (0.3 : K) * md < md := by
      have : (0.3 : K) < 1 := by norm_num
      calc (0.3 : K) * md < 1 * md := mul_lt_mul_of_pos_right this hmd
        _ = md := one_mul md
    exact lt_of_le_of_lt h1 h2
  have hg0 : 0 < 4 * mi * md / (mi + md) ^ 2 := by positivity
  have hg1 : 4 * mi * md / (mi + md) ^ 2 < 1 := by
    rw [div_lt_one hsum]
    have : 0 < (md - mi) ^ 2 := by
      have : 0 < md - mi := sub_pos.mpr hlt
      positivity
    nlinarith
  have hprod : 0 < 4 * mi * md / (mi + md) ^ 2 * (1 - 4 * mi * md / (mi + md) ^ 2) :=
    mul_pos hg0 (sub_pos.mpr hg1)
  have hEth : (sputter_pair pw u0 md mi).Eth
      = u0 / (4 * mi * md / (mi + md) ^ 2 * (1 - 4 * mi * md / (mi + md) ^ 2)) := by
    have h' : ¬ (mi / md > 0.3) := not_lt.mpr hr
    simp only [sputter_pair, numbers.four, square, h', if_false, pow_two]
  refine ⟨hg0, hg1, hprod, hEth, ?_⟩
  rw [hEth]
  exact div_pos hu0 hprod

/-- Witness of C25: ion mass 3, grain mass 10 and binding energy 1, on the boundary
`mi / md = 0.3`. -/
theorem Eth_else_branch_defined_witness :
    (0 : ℚ) < 4 * 3 * 10 / (3 + 10) ^ 2 ∧ (4 : ℚ) * 3 * 10 / (3 + 10) ^ 2 < 1 ∧
    (0 : ℚ) < 4 * 3 * 10 / (3 + 10) ^ 2 * (1 - 4 * 3 * 10 / (3 + 10) ^ 2) ∧
    (sputter_pair pow_floor 1 10 3).Eth
      = 1 / (4 * 3 * 10 / (3 + 10) ^ 2 * (1 - 4 * 3 * 10 / (3 + 10) ^ 2)) ∧
    0 < (sputter_pair pow_floor 1 10 3).Eth :=
  Eth_else_branch_defined pow_floor 1 10 3 (by norm_num) (by norm_num) (by norm_num)
    (by norm_num)

/-! ## The indices of the scheduler -/

/-- C26: for `par_size ≥ 1` and `par_rank < par_size` the indices that
`create_simulation_cells` computes for a map of `T` entries satisfy
`cell_rank_start_idx ≤ cell_end ≤ T`, for the first and for the final value of `cell_end`; the
iterator is advanced `cell_rank_start_idx ≤ T` times and leaves `T - cell_rank_start_idx`
entries, and the reserved capacity `cell_end - cell_rank_start_idx` is not negative.  The loop of
`create_simulation_cells` runs with these indices. -/
theorem create_simulation_cells_indices {K : Type} [Zero K] (par_size par_rank : ℕ)
    (output_exists : Int → Bool) (restart_file : Int → Option (TokenFile K))
    (cell_inputs : CellStore K) (_hR : 1 ≤ par_size) (hr : par_rank < par_size) :
    cell_rank_start_idx cell_inputs.length par_size par_rank
      ≤ cell_end cell_inputs.length par_size par_rank ∧
    cell_end cell_inputs.length par_size par_rank ≤ cell_inputs.length ∧
    cell_rank_start_idx cell_inputs.length par_size par_rank
      ≤ cell_end_of_slice cell_inputs.length par_size par_rank ∧
    cell_end_of_slice cell_inputs.length par_size par_rank ≤ cell_inputs.length ∧
    (0 : ℤ) ≤ (cell_end cell_inputs.length par_size par_rank : ℤ)
      - (cell_rank_start_idx cell_inputs.length par_size par_rank : ℤ) ∧
    (cell_inputs.drop (cell_rank_start_idx cell_inputs.length par_size par_rank)).length
      = cell_inputs.length - cell_rank_start_idx cell_inputs.length par_size par_rank ∧
    create_simulation_cells par_size par_rank output_exists restart_file cell_inputs
      = create_simulation_cells_loop output_exists restart_file
          (cell_end cell_inputs.length par_size par_rank)
          (cell_rank_start_idx cell_inputs.length par_size par_rank)
          (cell_inputs.drop (cell_rank_start_idx cell_inputs.length par_size par_rank))
          { cells := [], cell_inputs := cell_inputs, ended := false, visited := [],
            restart_reads := [] } := by
  have hstart : cell_rank_start_idx cell_inputs.length par_size par_rank
      ≤ cell_inputs.length := by
    unfold cell_rank_start_idx
    calc par_rank * (cell_inputs.length / par_size)
        ≤ par_size * (cell_inputs.length / par_size) :=
          Nat.mul_le_mul_right _ (Nat.le_of_lt hr)
      _ ≤ cell_inputs.length := Nat.mul_div_le _ _
  have h1 : cell_rank_start_idx cell_inputs.length par_size par_rank
      ≤ cell_end cell_inputs.length par_size par_rank := by
    unfold cell_end; omega
  have h2 : cell_end cell_inputs.length par_size par_rank ≤ cell_inputs.length := by
    unfold cell_end; omega
  have h3 : cell_rank_start_idx cell_inputs.length par_size par_rank
      ≤ cell_end_of_slice cell_inputs.length par_size par_rank := by
    unfold cell_end_of_slice
    generalize cell_inputs.length / par_size = q
    split <;> omega
  have h4 : cell_end_of_slice cell_inputs.length par_size par_rank ≤ cell_inputs.length := by
    unfold cell_end_of_slice
    generalize cell_inputs.length / par_size = q
    split <;> omega
  refine ⟨h1, h2, h3, h4, by omega, List.length_drop _ _, rfl⟩

/-- Witness of C26: seven cells on two ranks, rank 1. -/
theorem create_simulation_cells_indices_witness :
    cell_rank_start_idx seven_cells.length 2 1 ≤ cell_end seven_cells.length 2 1 ∧
    cell_end seven_cells.length 2 1 ≤ seven_cells.length ∧
    cell_rank_start_idx seven_cells.length 2 1 ≤ cell_end_of_slice seven_cells.length 2 1 ∧
    cell_end_of_slice seven_cells.length 2 1 ≤ seven_cells.length ∧
    (0 : ℤ) ≤ (cell_end seven_cells.length 2 1 : ℤ)
      - (cell_rank_start_idx seven_cells.length 2 1 : ℤ) ∧
    (seven_cells.drop (cell_rank_start_idx seven_cells.length 2 1)).length
      = seven_cells.length - cell_rank_start_idx seven_cells.length 2 1 ∧
    create_simulation_cells 2 1 no_output no_restart seven_cells
      = create_simulation_cells_loop no_output no_restart
          (cell_end seven_cells.length 2 1) (cell_rank_start_idx seven_cells.length 2 1)
          (seven_cells.drop (cell_rank_start_idx seven_cells.length 2 1))
          { cells := [], cell_inputs := seven_cells, ended := false, visited := [],
            restart_reads := [] } :=
  create_simulation_cells_indices 2 1 no_output no_restart seven_cells (by decide) (by decide)
/-! ## Restart files -/

theorem filterMap_id_map_some {K : Type} (l : List (Option K)) :
    (l.filterMap id).map some = l.filter (fun tok => tok.isSome) := by
  induction l with
  | nil => rfl
  | cons x xs ih =>
    cases x with
    | none => simpa using ih
    | some v => simpa using ih

theorem create_restart_cells_some {K : Type} [Zero K]
    (restart_file : Int → Option (TokenFile K)) (cell_id : Int) (cell_inputs : CellStore K)
    (f : TokenFile K) (t : K) (hf : restart_file cell_id = some f)
    (ht : (f.line 0).head? = some (some t)) :
    ∃ m, create_restart_cells restart_file cell_id cell_inputs = some m ∧
      (m.at cell_id).sim_start_time = t ∧
      (m.at cell_id).inp_vd = (cell_inputs.at cell_id).inp_vd ++ (f.line 1).filterMap id ∧
      (m.at cell_id).inp_delSZ
        = (cell_inputs.at cell_id).inp_delSZ ++ (f.line 2).filterMap id ∧
      (m.at cell_id).inp_solution_vector
        = (cell_inputs.at cell_id).inp_solution_vector ++ (f.line 3).filterMap id := by
  simp only [create_restart_cells, hf, create_restart_cells_input, ht, Option.map_some']
  refine ⟨_, rfl, ?_⟩
  rw [CellStore.at_modify_self]
  exact ⟨rfl, rfl, rfl, rfl⟩

/-- Counterexample to C21 as stated: a restart file of three lines (start time 5; 1 2; the delta
sizes 11 12 followed by the solution vector 21 22 23).  On an empty cell input the whole third
line goes to the delta-size array and the solution vector stays empty; on a cell input that holds
data, the arrays are extended, not replaced. -/
theorem create_restart_cells_legacy_counterexample :
    (create_restart_cells (fun _ => some legacy_restart_file) 10
        [(10, (CellInput.empty : CellInput ℚ))]).map
      (fun m => ((m.at 10).sim_start_time, (m.at 10).inp_vd, (m.at 10).inp_delSZ,
        (m.at 10).inp_solution_vector))
      = some (5, [1, 2], [11, 12, 21, 22, 23], []) ∧
    (create_restart_cells (fun _ => some legacy_restart_file) 10 [(10, loaded_cell)]).map
      (fun m => ((m.at 10).sim_start_time, (m.at 10).inp_vd, (m.at 10).inp_delSZ,
        (m.at 10).inp_solution_vector))
      = some (5, [4, 1, 2], [0, 0, 11, 12, 21, 22, 23], [6]) := by
  decide

/-- C21 (amended): for a restart file of four lines whose tokens parse (line 1 the start time,
line 2 the velocity deficits, line 3 the delta sizes, line 4 the solution vector),
`create_restart_cells` returns; the start time of the cell is the value of line 1, and its
velocity-deficit array, delta-size array and solution vector end with the values of the lines 2, 3
and 4; they are exactly these values where the array of the cell input was empty before. -/
theorem create_restart_cells_four_lines {K : Type} [Zero K]
    (restart_file : Int → Option (TokenFile K)) (cell_id : Int) (cell_inputs : CellStore K)
    (t : K) (more : List (Option K)) (vd dz sv : List K)
    (hf : restart_file cell_id
      = some [some t :: more, vd.map some, dz.map some, sv.map some]) :
    ∃ m, create_restart_cells restart_file cell_id cell_inputs = some m ∧
      (m.at cell_id).sim_start_time = t ∧
      vd <:+ (m.at cell_id).inp_vd ∧ dz <:+ (m.at cell_id).inp_delSZ ∧
      sv <:+ (m.at cell_id).inp_solution_vector ∧
      ((cell_inputs.at cell_id).inp_vd = [] → (m.at cell_id).inp_vd = vd) ∧
      ((cell_inputs.at cell_id).inp_delSZ = [] → (m.at cell_id).inp_delSZ = dz) ∧
      ((cell_inputs.at cell_id).inp_solution_vector = [] →
        (m.at cell_id).inp_solution_vector = sv) := by
  obtain ⟨m, hm, h0, h1, h2, h3⟩ := create_restart_cells_some restart_file cell_id cell_inputs
    [some t :: more, vd.map some, dz.map some, sv.map some] t hf rfl
  have e : ∀ l : List K, (l.map some).filterMap id = l := by
    intro l
    induction l with
    | nil => rfl
    | cons x xs ih => simp
  have e1 : TokenFile.line [some t :: more, vd.map some, dz.map some, sv.map some] 1
      = vd.map some := rfl
  have e2 : TokenFile.line [some t :: more, vd.map some, dz.map some, sv.map some] 2
      = dz.map some := rfl
  have e3 : TokenFile.line [some t :: more, vd.map some, dz.map some, sv.map some] 3
      = sv.map some := rfl
  rw [e1, e] at h1
  rw [e2, e] at h2
  rw [e3, e] at h3
  refine ⟨m, hm, h0, ?_, ?_, ?_, ?_, ?_, ?_⟩
  · rw [h1]; exact List.suffix_append _ _
  · rw [h2]; exact List.suffix_append _ _
  · rw [h3]; exact List.suffix_append _ _
  · intro h; rw [h1, h]; rfl
  · intro h; rw [h2, h]; rfl
  · intro h; rw [h3, h]; rfl

/-- Witness of C21 (amended): a file of four lines for the cell 10, read into a cell input that
holds data. -/
theorem create_restart_cells_four_lines_witness :
    ∃ m, create_restart_cells
        (fun _ => some [some 5 :: [], ([1, 2] : List ℚ).map some, ([11, 12] : List ℚ).map some,
          ([21, 22, 23] : List ℚ).map some])
        10 [(10, loaded_cell)] = some m ∧
      (m.at 10).sim_start_time = 5 ∧
      [1, 2] <:+ (m.at 10).inp_vd ∧ [11, 12] <:+ (m.at 10).inp_delSZ ∧
      [21, 22, 23] <:+ (m.at 10).inp_solution_vector ∧
      ((CellStore.at [(10, loaded_cell)] 10).inp_vd = [] → (m.at 10).inp_vd = [1, 2]) ∧
      ((CellStore.at [(10, loaded_cell)] 10).inp_delSZ = [] →
        (m.at 10).inp_delSZ = [11, 12]) ∧
      ((CellStore.at [(10, loaded_cell)] 10).inp_solution_vector = [] →
        (m.at 10).inp_solution_vector = [21, 22, 23]) :=
  create_restart_cells_four_lines
    (fun _ => some [some 5 :: [], ([1, 2] : List ℚ).map some, ([11, 12] : List ℚ).map some,
      ([21, 22, 23] : List ℚ).map some])
    10 [(10, loaded_cell)] 5 [] [1, 2] [11, 12] [21, 22, 23] rfl

/-- C22: when the first token of line 1 is a number, `create_restart_cells` returns whatever the
other tokens are, and the values added to the velocity-deficit array, to the delta-size array
and to the solution vector are the tokens of the lines 2, 3 and 4 that are numbers, in their order;
the other tokens are dropped. -/
theorem create_restart_cells_drops_bad_tokens {K : Type} [Zero K]
    (restart_file : Int → Option (TokenFile K)) (cell_id : Int) (cell_inputs : CellStore K)
    (f : TokenFile K) (t : K) (hf : restart_file cell_id = some f)
    (ht : (f.line 0).head? = some (some t)) :
    ∃ m vd dz sv, create_restart_cells restart_file cell_id cell_inputs = some m ∧
      (m.at cell_id).inp_vd = (cell_inputs.at cell_id).inp_vd ++ vd ∧
      vd.map some = (f.line 1).filter (fun tok => tok.isSome) ∧
      (m.at cell_id).inp_delSZ = (cell_inputs.at cell_id).inp_delSZ ++ dz ∧
      dz.map some = (f.line 2).filter (fun tok => tok.isSome) ∧
      (m.at cell_id).inp_solution_vector
        = (cell_inputs.at cell_id).inp_solution_vector ++ sv ∧
      sv.map some = (f.line 3).filter (fun tok => tok.isSome) := by
  obtain ⟨m, hm, _, h1, h2, h3⟩ :=
    create_restart_cells_some restart_file cell_id cell_inputs f t hf ht
  exact ⟨m, _, _, _, hm, h1, filterMap_id_map_some _, h2, filterMap_id_map_some _, h3,
    filterMap_id_map_some _⟩

/-- Witness of C22: the restart file of cell 10 has a token that is not a number on its second
line. -/
theorem create_restart_cells_drops_bad_tokens_witness :
    ∃ m vd dz sv, create_restart_cells restart_of_ten 10 [(10, loaded_cell)] = some m ∧
      (m.at 10).inp_vd = (CellStore.at [(10, loaded_cell)] 10).inp_vd ++ vd ∧
      vd.map some = (demo_restart_file.line 1).filter (fun tok => tok.isSome) ∧
      (m.at 10).inp_delSZ = (CellStore.at [(10, loaded_cell)] 10).inp_delSZ ++ dz ∧
      dz.map some = (demo_restart_file.line 2).filter (fun tok => tok.isSome) ∧
      (m.at 10).inp_solution_vector
        = (CellStore.at [(10, loaded_cell)] 10).inp_solution_vector ++ sv ∧
      sv.map some = (demo_restart_file.line 3).filter (fun tok => tok.isSome) :=
  create_restart_cells_drops_bad_tokens restart_of_ten 10 [(10, loaded_cell)]
    demo_restart_file 5 (by decide) (by decide)
/-! ## The environment file -/

theorem load_environment_data_row_marker {K : Type} [Zero K] (st : K × CellStore K)
    (tok : EnvToken K) (t : K) (ht : tok.as_double = some t) :
    load_environment_data_row st [tok] = some (t, st.2) := by
  simp [load_environment_data_row, ht]

theorem load_environment_data_row_data {K : Type} [Zero K] (st : K × CellStore K)
    (d : EnvData K) :
    ∃ m, load_environment_data_row st (parsed_env_row (Sum.inr d)) = some (st.1, m) ∧
      (m.at d.cid).inp_times = (st.2.at d.cid).inp_times ++ [st.1] ∧
      (m.at d.cid).inp_temp = (st.2.at d.cid).inp_temp ++ [d.temp] ∧
      (m.at d.cid).inp_volumes = (st.2.at d.cid).inp_volumes ++ [d.vol] ∧
      (m.at d.cid).inp_rho = (st.2.at d.cid).inp_rho ++ [d.rho] ∧
      (m.at d.cid).inp_pressure = (st.2.at d.cid).inp_pressure ++ [d.press] ∧
      (m.at d.cid).inp_velo = (st.2.at d.cid).inp_velo ++ [d.velo] ∧
      (m.at d.cid).inp_x_cm = (st.2.at d.cid).inp_x_cm ++ [d.x_cm] ∧
      ∀ k, k ≠ d.cid → m.at k = st.2.at k := by
  simp only [load_environment_data_row, parsed_env_row, number_token, List.length_cons,
    List.length_nil]
  refine ⟨_, rfl, ?_⟩
  rw [CellStore.at_modify_self]
  exact ⟨rfl, rfl, rfl, rfl, rfl, rfl, rfl, fun k hk => CellStore.at_modify_of_ne _ _ _ _ hk⟩

theorem load_environment_data_rows {K : Type} [Zero K] (k : Int) :
    ∀ (rows : List (K ⊕ EnvData K)) (st : K × CellStore K),
      ∃ st', (rows.map parsed_env_row).foldlM load_environment_data_row st = some st' ∧
        trajectory_lengths (st'.2.at k)
          = (trajectory_lengths (st.2.at k)).map (fun n => n + env_row_count k rows) := by
  intro rows
  induction rows with
  | nil =>
    intro st
    exact ⟨st, rfl, by simp [trajectory_lengths, env_row_count]⟩
  | cons r rest ih =>
    intro st
    cases r with
    | inl t =>
      obtain ⟨st', hst', hl⟩ := ih (t, st.2)
      refine ⟨st', ?_, ?_⟩
      · simp only [List.map_cons, List.foldlM_cons, parsed_env_row,
          load_environment_data_row_marker st (number_token t) t rfl, Option.bind_eq_bind,
          Option.some_bind]
        exact hst'
      · rw [hl]
        simp [env_row_count]
    | inr d =>
      obtain ⟨m, hm, h1, h2, h3, h4, h5, h6, h7, hother⟩ :=
        load_environment_data_row_data st d
      obtain ⟨st', hst', hl⟩ := ih (st.1, m)
      refine ⟨st', ?_, ?_⟩
      · simp only [List.map_cons, List.foldlM_cons, hm, Option.bind_eq_bind, Option.some_bind]
        exact hst'
      · rw [hl]
        by_cases hk : k = d.cid
        · subst hk
          have hc : env_row_count d.cid (Sum.inr d :: rest)
              = env_row_count d.cid rest + 1 := by
            simp [env_row_count]
          simp only [trajectory_lengths, h1, h2, h3, h4, h5, h6, h7, hc, List.length_append,
            List.length_singleton, List.map_cons, List.map_nil]
          simp only [Nat.add_assoc, Nat.add_comm 1]
        · have hc : env_row_count k (Sum.inr d :: rest) = env_row_count k rest := by
            have : ¬ d.cid = k := fun e => hk e.symm
            simp [env_row_count, this]
          rw [hother k hk, hc]

/-- C23: in `load_environment_data` a line of one token sets the time marker and changes no
cell; a line of seven tokens appends one entry to each of the seven trajectory arrays of its cell,
the time entry being the current marker, and changes no other cell; and for a file whose lines
parse, the loader returns and each of the seven trajectory arrays of every cell has grown by the
number of seven-token rows that carry its id (so the seven lengths are equal to that number for
a cell whose arrays were empty before). -/
theorem load_environment_data_trajectories {K : Type} [Zero K] (time : K)
    (cell_inputs : CellStore K) (rows : List (K ⊕ EnvData K)) :
    (∀ (st : K × CellStore K) (t : K),
      load_environment_data_row st (parsed_env_row (Sum.inl t)) = some (t, st.2)) ∧
    (∀ (st : K × CellStore K) (d : EnvData K),
      ∃ m, load_environment_data_row st (parsed_env_row (Sum.inr d)) = some (st.1, m) ∧
        (m.at d.cid).inp_times = (st.2.at d.cid).inp_times ++ [st.1] ∧
        (m.at d.cid).inp_temp = (st.2.at d.cid).inp_temp ++ [d.temp] ∧
        (m.at d.cid).inp_volumes = (st.2.at d.cid).inp_volumes ++ [d.vol] ∧
        (m.at d.cid).inp_rho = (st.2.at d.cid).inp_rho ++ [d.rho] ∧
        (m.at d.cid).inp_pressure = (st.2.at d.cid).inp_pressure ++ [d.press] ∧
        (m.at d.cid).inp_velo = (st.2.at d.cid).inp_velo ++ [d.velo] ∧
        (m.at d.cid).inp_x_cm = (st.2.at d.cid).inp_x_cm ++ [d.x_cm] ∧
        ∀ k, k ≠ d.cid → m.at k = st.2.at k) ∧
    (∃ m, load_environment_data (some (rows.map parsed_env_row)) time cell_inputs = some m ∧
      ∀ k, trajectory_lengths (m.at k)
          = (trajectory_lengths (cell_inputs.at k)).map (fun n => n + env_row_count k rows) ∧
        (trajectory_lengths (cell_inputs.at k) = List.replicate 7 0 →
          trajectory_lengths (m.at k) = List.replicate 7 (env_row_count k rows))) := by
  refine ⟨fun st t => load_environment_data_row_marker st (number_token t) t rfl,
    fun st d => load_environment_data_row_data st d, ?_⟩
  obtain ⟨st', hst', _⟩ := load_environment_data_rows (K := K) 0 rows (time, cell_inputs)
  refine ⟨st'.2, by simp only [load_environment_data, hst', Option.map_some'], fun k => ?_⟩
  obtain ⟨st'', hst'', hl⟩ := load_environment_data_rows k rows (time, cell_inputs)
  have e : st'' = st' := Option.some.inj (hst''.symm.trans hst')
  rw [e] at hl
  refine ⟨hl, fun h0 => ?_⟩
  rw [hl, h0]
  simp [List.replicate]

/-- Evaluation for C23: the marker 100, a row for cell 1, a row for cell 2, the marker 200 and a
second row for cell 1, read into an empty map. -/
theorem load_environment_data_trajectories_witness :
    (load_environment_data (some (demo_env_rows.map parsed_env_row)) 0 []).map
      (fun m => ((m.at 1).inp_times, (m.at 1).inp_temp, (m.at 2).inp_times,
        trajectory_lengths (m.at 1), trajectory_lengths (m.at 2)))
      = some ([100, 200], [11, 31], [100], [2, 2, 2, 2, 2, 2, 2], [1, 1, 1, 1, 1, 1, 1]) ∧
    (∃ m, load_environment_data (some (demo_env_rows.map parsed_env_row)) 0 [] = some m ∧
      ∀ k, trajectory_lengths (m.at k)
          = (trajectory_lengths (CellStore.at ([] : CellStore ℚ) k)).map
              (fun n => n + env_row_count k demo_env_rows) ∧
        (trajectory_lengths (CellStore.at ([] : CellStore ℚ) k) = List.replicate 7 0 →
          trajectory_lengths (m.at k) = List.replicate 7 (env_row_count k demo_env_rows))) :=
  ⟨by decide, (load_environment_data_trajectories (0 : ℚ) [] demo_env_rows).2.2⟩

end NuDust
